import Mathlib

/-
Verification development for the PDF outline extraction pipeline
(src/main.py, src/utils.py).

Modelling conventions of the shallow embedding:
- Python strings are lists of Unicode codepoints (`List Nat`); `pyStr`
  converts a Lean string literal to that form.
- Python floats (font sizes, coordinates) are modelled as rationals.
  `round(x, n)` is modelled as round-half-to-even at n decimal digits,
  and float literals such as 0.35 or 15.96 as their decimal rationals.
- `str.isalpha` / `isupper` / `islower` are modelled on the ASCII range
  (the inputs exercised by the claims are ASCII); `str.isspace` and the
  regex class \s use the full Python whitespace set.
- The regex matchers assume their input holds no newline (every call
  site applies them to `normalize`d text, which collapses all
  whitespace to single spaces).
- Python dicts/sets are association lists / lists with membership; the
  `Counter` insertion order (first occurrence) and the stability of
  `most_common` and `list.sort` are preserved (insertion sort).
-/

namespace PdfPipeline

/-- Python string = list of Unicode codepoints. -/
abbrev PyStr := List Nat

/-- Codepoints of a Lean string literal. -/
def pyStr (s : String) : PyStr := s.data.map Char.toNat

/-- The codepoints Python's `str.isspace` (and the regex class \s) accepts. -/
def pySpaceChars : List Nat :=
  [9, 10, 11, 12, 13, 28, 29, 30, 31, 32, 133, 160, 5760,
   8192, 8193, 8194, 8195, 8196, 8197, 8198, 8199, 8200, 8201, 8202,
   8232, 8233, 8239, 8287, 12288]

def pyIsSpace (c : Nat) : Bool := pySpaceChars.contains c

def pyIsDigit (c : Nat) : Bool := 48 ≤ c && c ≤ 57

/-- ASCII model of `str.isalpha` (see header). -/
def pyIsAlpha (c : Nat) : Bool := (65 ≤ c && c ≤ 90) || (97 ≤ c && c ≤ 122)

def pyIsUpper (c : Nat) : Bool := 65 ≤ c && c ≤ 90

def pyIsLower (c : Nat) : Bool := 97 ≤ c && c ≤ 122

/-- Python substring test `needle in hay`. -/
def containsSub (hay needle : PyStr) : Bool :=
  match hay with
  | [] => needle.isEmpty
  | _ :: t => needle.isPrefixOf hay || containsSub t needle

/-- Python `str.strip()`: drop leading and trailing whitespace. -/
def stripL (s : PyStr) : PyStr :=
  ((s.dropWhile pyIsSpace).reverse.dropWhile pyIsSpace).reverse

/-- Worker for `re.sub(r"\s+", " ", s)`: the Bool records whether the
previous character was part of a whitespace run already replaced. -/
def collapseAux : Bool → PyStr → PyStr
  | _, [] => []
  | b, c :: rest =>
    if pyIsSpace c then
      if b then collapseAux true rest else 32 :: collapseAux true rest
    else c :: collapseAux false rest

/-- `re.sub(r"\s+", " ", s)`: each maximal whitespace run becomes one space. -/
def subWS (s : PyStr) : PyStr := collapseAux false s

/-- Python `str.replace(a, b)` for single characters. -/
def replaceChar (a b : Nat) (s : PyStr) : PyStr :=
  s.map fun c => if c = a then b else c

/-- Python `str.replace(a, "")` for a single character. -/
def removeChar (a : Nat) (s : PyStr) : PyStr := s.filter fun c => c ≠ a

/-- src/utils.py line 10: normalize = collapse whitespace on the stripped
text, then map curly quotes to ASCII, NBSP to space, and delete U+200B. -/
def normalize (t : PyStr) : PyStr :=
  removeChar 0x200B
    (replaceChar 0xA0 32
      (replaceChar 0x201D 34
        (replaceChar 0x201C 34
          (replaceChar 0x2019 39 (subWS (stripL t))))))

/-- Python `str.split()` (no argument): split on whitespace runs, no empties.
The first argument accumulates the current word reversed. -/
def splitWSAux : PyStr → PyStr → List PyStr
  | cur, [] => if cur.isEmpty then [] else [cur.reverse]
  | cur, c :: rest =>
    if pyIsSpace c then
      if cur.isEmpty then splitWSAux [] rest
      else cur.reverse :: splitWSAux [] rest
    else splitWSAux (c :: cur) rest

def splitWS (s : PyStr) : List PyStr := splitWSAux [] s

/-- Python `" ".join(parts)`. -/
def joinSpace : List PyStr → PyStr
  | [] => []
  | [x] => x
  | x :: xs => x ++ 32 :: joinSpace xs

/-- Python `s.split(":", 1)`: the part before the first colon and the part
after it (when a colon is present; callers guard on that). -/
def splitColon1Aux : PyStr → PyStr → PyStr × PyStr
  | acc, [] => (acc.reverse, [])
  | acc, c :: rest =>
    if c = 58 then (acc.reverse, rest) else splitColon1Aux (c :: acc) rest

def splitColon1 (s : PyStr) : PyStr × PyStr := splitColon1Aux [] s

/-- Python string `<` (lexicographic by codepoint). -/
def pyStrLtB : PyStr → PyStr → Bool
  | [], [] => false
  | [], _ :: _ => true
  | _ :: _, [] => false
  | a :: s, b :: t => if a < b then true else if b < a then false else pyStrLtB s t

/-- `re.match(r"^[A-Z][a-z]", t)` as a Bool. -/
def startsCapLower : PyStr → Bool
  | a :: b :: _ => pyIsUpper a && pyIsLower b
  | _ => false

/-- `re.fullmatch(r"\d+", t)`. -/
def digitsFull (t : PyStr) : Bool := !t.isEmpty && t.all pyIsDigit

/-- `re.fullmatch(r"[ivxlcdm]+", t, re.IGNORECASE)`. -/
def romanFull (t : PyStr) : Bool :=
  !t.isEmpty && t.all fun c => (pyStr "ivxlcdmIVXLCDM").contains c

/-- Distinct elements of a list, first occurrence kept in order (the key
order of a Python dict/Counter built from that list). -/
def dedupKeepAux [DecidableEq α] : List α → List α → List α
  | _, [] => []
  | seen, x :: xs =>
    if x ∈ seen then dedupKeepAux seen xs else x :: dedupKeepAux (x :: seen) xs

def dedupKeep [DecidableEq α] (l : List α) : List α := dedupKeepAux [] l

/-- `Counter(l)` as (key, count) pairs in first-occurrence order. -/
def countOccs [DecidableEq α] (l : List α) : List (α × Nat) :=
  (dedupKeep l).map fun x => (x, l.count x)

/-- `Counter.most_common(1)[0][0]`: the first key of maximal count
(`heapq.nlargest` is stable, so ties resolve to the earliest key). -/
def mostCommon1 [DecidableEq α] : List (α × Nat) → Option α
  | [] => none
  | p :: rest => some (rest.foldl (fun best q => if q.2 > best.2 then q else best) p).1

/-- Python `round()` to an integer: round half to even. -/
def roundHalfEven (q : ℚ) : ℤ :=
  let f : ℤ := ⌊q⌋
  let r : ℚ := q - f
  if r < 1/2 then f
  else if r > 1/2 then f + 1
  else if f % 2 = 0 then f else f + 1

/-- `round(x, 1)`. -/
def round1 (q : ℚ) : ℚ := (roundHalfEven (q * 10) : ℚ) / 10

/-- `round(x, 2)`. -/
def round2 (q : ℚ) : ℚ := (roundHalfEven (q * 100) : ℚ) / 100

/-- The f-string `f"H{k}"` for 1 ≤ k ≤ 9. -/
def hStr (k : Nat) : PyStr := [72, 48 + k]

/-- Numeric rank of a heading level string: H1 ↦ 1 (highest) … H4 ↦ 4. -/
def levelRank : PyStr → Nat
  | [_, d] => d - 48
  | _ => 0

/-- Python truthiness of an optional string (None and "" are falsy). -/
def truthy : Option PyStr → Bool
  | none => false
  | some s => !s.isEmpty

/-! ## Data model -/

/-- A character record as produced by the PDF parser (pdfplumber `page.chars`):
fields text, fontname, size, width, x0, top. -/
structure PyChar where
  text : PyStr
  fontname : PyStr
  size : ℚ
  width : ℚ
  x0 : ℚ
  top : ℚ
  deriving DecidableEq, Repr

/-- A reconstructed line (the dicts built by `extract_lines`). -/
structure Line where
  text : PyStr
  font : PyStr
  font_size : ℚ
  x0 : ℚ
  y : ℚ
  page : ℕ
  deriving DecidableEq, Repr

/-- An outline entry as first appended inside `classify_headings`
(before the merge step, so it still has a font_size field). -/
structure RawEntry where
  level : PyStr
  text : PyStr
  page : ℕ
  y : ℚ
  x0 : ℚ
  font_size : ℚ
  deriving DecidableEq, Repr

/-- An outline entry after the merge step (font_size dropped). -/
structure MergedEntry where
  level : PyStr
  text : PyStr
  page : ℕ
  y : ℚ
  x0 : ℚ
  deriving DecidableEq, Repr

/-- A final outline entry (y/x0 popped). -/
structure Entry where
  level : PyStr
  text : PyStr
  page : ℕ
  deriving DecidableEq, Repr

/-- The per-document output record written by `main`. -/
structure OutputData where
  title : PyStr
  outline : List Entry
  deriving DecidableEq, Repr

/-! ## Sort orders (Python `list.sort` key comparisons) -/

/-- Lexicographic ≤ on a pair (used for sort keys of two components). -/
def lex2 (p q : ℚ × ℚ) : Prop :=
  p.1 < q.1 ∨ (p.1 = q.1 ∧ p.2 ≤ q.2)

/-- Lexicographic ≤ on (page, y, x0)-style keys. -/
def lex3 (p q : ℕ × ℚ × ℚ) : Prop :=
  p.1 < q.1 ∨ (p.1 = q.1 ∧ lex2 p.2 q.2)

instance : DecidableRel lex2 := fun _ _ => by unfold lex2; infer_instance

instance : DecidableRel lex3 := fun _ _ => by unfold lex3; infer_instance

/-- Totality of lex2 (used to build the sort instances). -/
def lex2_total (p q : ℚ × ℚ) : lex2 p q ∨ lex2 q p := by
  rcases lt_trichotomy p.1 q.1 with h | h | h
  · exact Or.inl (Or.inl h)
  · rcases le_total p.2 q.2 with h2 | h2
    · exact Or.inl (Or.inr ⟨h, h2⟩)
    · exact Or.inr (Or.inr ⟨h.symm, h2⟩)
  · exact Or.inr (Or.inl h)

/-- Totality of lex3 (used to build the sort instances). -/
def lex3_total (p q : ℕ × ℚ × ℚ) : lex3 p q ∨ lex3 q p := by
  rcases lt_trichotomy p.1 q.1 with h | h | h
  · exact Or.inl (Or.inl h)
  · rcases lex2_total p.2 q.2 with h2 | h2
    · exact Or.inl (Or.inr ⟨h, h2⟩)
    · exact Or.inr (Or.inr ⟨h.symm, h2⟩)
  · exact Or.inr (Or.inl h)

/-- Transitivity of lex2 (used to build the sort instances). -/
def lex2_trans {p q r : ℚ × ℚ} (h1 : lex2 p q) (h2 : lex2 q r) : lex2 p r := by
  rcases h1 with h1 | ⟨e1, l1⟩
  · rcases h2 with h2 | ⟨e2, _⟩
    · exact Or.inl (h1.trans h2)
    · exact Or.inl (e2 ▸ h1)
  · rcases h2 with h2 | ⟨e2, l2⟩
    · exact Or.inl (e1 ▸ h2)
    · exact Or.inr ⟨e1.trans e2, l1.trans l2⟩

/-- Transitivity of lex3 (used to build the sort instances). -/
def lex3_trans {p q r : ℕ × ℚ × ℚ} (h1 : lex3 p q) (h2 : lex3 q r) : lex3 p r := by
  rcases h1 with h1 | ⟨e1, l1⟩
  · rcases h2 with h2 | ⟨e2, _⟩
    · exact Or.inl (h1.trans h2)
    · exact Or.inl (e2 ▸ h1)
  · rcases h2 with h2 | ⟨e2, l2⟩
    · exact Or.inl (e1 ▸ h2)
    · exact Or.inr ⟨e1.trans e2, lex2_trans l1 l2⟩

/-- `chars.sort(key=lambda c: (round(c["top"], 1), c["x0"]))`. -/
def charLe (a b : PyChar) : Prop := lex2 (round1 a.top, a.x0) (round1 b.top, b.x0)

/-- `lines.sort(key=lambda x: (x["page"], x["y"], x["x0"]))`. -/
def lineLe (a b : Line) : Prop := lex3 (a.page, a.y, a.x0) (b.page, b.y, b.x0)

/-- `potential_title_lines.sort(key=lambda x: (x["y"], x["x0"]))`. -/
def titleLe (a b : Line) : Prop := lex2 (a.y, a.x0) (b.y, b.x0)

/-- `cleaned_outline.sort(key=lambda x: (x["page"], x["y"], x["x0"]))`. -/
def meLe (a b : MergedEntry) : Prop := lex3 (a.page, a.y, a.x0) (b.page, b.y, b.x0)

/-- ℚ descending (for `sorted(..., reverse=True)`). -/
def geQ (a b : ℚ) : Prop := a ≥ b

instance : DecidableRel charLe := fun _ _ => by unfold charLe; infer_instance
instance : DecidableRel lineLe := fun _ _ => by unfold lineLe; infer_instance
instance : DecidableRel titleLe := fun _ _ => by unfold titleLe; infer_instance
instance : DecidableRel meLe := fun _ _ => by unfold meLe; infer_instance
instance : DecidableRel geQ := fun _ _ => by unfold geQ; infer_instance

instance : IsTotal PyChar charLe := ⟨fun _ _ => lex2_total _ _⟩
instance : IsTrans PyChar charLe := ⟨fun _ _ _ => lex2_trans⟩
instance : IsTotal Line lineLe := ⟨fun _ _ => lex3_total _ _⟩
instance : IsTrans Line lineLe := ⟨fun _ _ _ => lex3_trans⟩
instance : IsTotal Line titleLe := ⟨fun _ _ => lex2_total _ _⟩
instance : IsTrans Line titleLe := ⟨fun _ _ _ => lex2_trans⟩
instance : IsTotal MergedEntry meLe := ⟨fun _ _ => lex3_total _ _⟩
instance : IsTrans MergedEntry meLe := ⟨fun _ _ _ => lex3_trans⟩
instance : IsTotal ℚ geQ := ⟨fun a b => le_total b a⟩
instance : IsTrans ℚ geQ := ⟨fun _ _ _ h h2 => le_trans h2 h⟩

/-- The in-place `lines.sort(...)` at the top of `classify_headings`
(Python sort is stable; insertion sort over a total preorder is stable). -/
def sortLines (lines : List Line) : List Line := lines.insertionSort lineLe

/-! ## src/utils.py: is_all_caps -/

/-- src/utils.py lines 14-24: strip, require length 5..70 with a letter, and
more than 85% of the alphabetic characters uppercase.  The float ratio test
`upper / alpha > 0.85` is the rational comparison `20 * upper > 17 * alpha`
(exact for these integer counts). -/
def is_all_caps (t : PyStr) : Bool :=
  let s := stripL t
  if !(5 ≤ s.length && s.length ≤ 70 && s.any pyIsAlpha) then false
  else
    let upper := (s.filter pyIsUpper).length
    let alpha := (s.filter pyIsAlpha).length
    decide (0 < alpha) && decide (20 * upper > 17 * alpha)

/-! ## src/utils.py: clean_doubled_text_aggressive (nested in extract_title) -/

/-- src/utils.py lines 282-291: collapse an immediately repeated identical
alphabetic character pair to a single occurrence (i advances by 2 on a hit). -/
def collapseDoubles : PyStr → PyStr
  | [] => []
  | [a] => [a]
  | a :: b :: rest =>
    if a = b && pyIsAlpha a then a :: collapseDoubles rest
    else a :: collapseDoubles (b :: rest)

/-- src/utils.py lines 293-299 (pattern 2): a word list longer than 4 with
even length whose normalized first half equals its normalized second half
collapses to the first half. -/
def titlePattern2 (t : PyStr) : PyStr :=
  let ws := splitWS t
  if ws.length > 4 && ws.length % 2 = 0 then
    let fh := joinSpace (ws.take (ws.length / 2))
    let sh := joinSpace (ws.drop (ws.length / 2))
    if normalize fh = normalize sh then fh else t
  else t

/-- src/utils.py lines 301-305 (pattern 3): "Label: Label" split on the first
colon collapses to the stripped label. -/
def titlePattern3 (t : PyStr) : PyStr :=
  if 58 ∈ t then
    let p := splitColon1 t
    if normalize p.1 = normalize p.2 then stripL p.1 else t
  else t

/-- src/utils.py lines 278-307: normalize, collapse doubled characters, then
pattern 2, then pattern 3, then a final strip. -/
def clean_doubled_text_aggressive (t : PyStr) : PyStr :=
  stripL (titlePattern3 (titlePattern2 (collapseDoubles (normalize t))))

/-! ## src/utils.py: extract_lines (Step 1) -/

/-- The line-text assembly of src/utils.py lines 54-62 / 80-88: walk the
characters of one reconstructed line, inserting a synthetic space when the
horizontal gap to the previous character's right edge exceeds half the
current character's width (and the text so far is not all whitespace). -/
def buildTextAux : Option ℚ → PyStr → List PyChar → PyStr
  | _, acc, [] => acc
  | prevEnd, acc, c :: rest =>
    let acc :=
      match prevEnd with
      | none => acc
      | some pe =>
        if c.x0 - pe > c.width * (1/2) && !(stripL acc).isEmpty then acc ++ [32]
        else acc
    buildTextAux (some (c.x0 + c.width)) (acc ++ c.text) rest

def buildText (chars : List PyChar) : PyStr := buildTextAux none [] chars

/-- src/utils.py lines 64-72 / 90-98: emit the line for a completed character
group, provided its stripped text is non-empty and the first character's size
is positive; the line inherits font, size and position from its first char. -/
def processGroup (page : ℕ) : List PyChar → Option Line
  | [] => none
  | c :: cs =>
    if !(stripL (buildText (c :: cs))).isEmpty && decide (c.size > 0) then
      some { text := stripL (buildText (c :: cs)), font := c.fontname,
             font_size := c.size, x0 := c.x0, y := c.top, page := page }
    else none

/-- src/utils.py lines 44-98: the grouping loop.  `cur` is the current
character group, `prevY` the previous character's rounded top.  A new group
starts when the rounded-y jump exceeds 0.5. -/
def yJump (prevY : Option ℚ) (cy : ℚ) : Bool :=
  match prevY with
  | none => true
  | some py => decide (|cy - py| > 1/2)

def groupChars (page : ℕ) : List PyChar → List PyChar → Option ℚ → List Line
  | [], cur, _ => (processGroup page cur).toList
  | c :: rest, cur, prevY =>
    if cur.isEmpty || yJump prevY (round1 c.top) then
      (processGroup page cur).toList ++ groupChars page rest [c] (some (round1 c.top))
    else groupChars page rest (cur ++ [c]) (some (round1 c.top))

/-- One page of src/utils.py extract_lines: sort the characters by
(rounded top, x0) and run the grouping loop. -/
def extractPage (page : ℕ) (chars : List PyChar) : List Line :=
  groupChars page (chars.insertionSort charLe) [] none

def extractPagesFrom : ℕ → List (List PyChar) → List Line
  | _, [] => []
  | i, p :: ps => extractPage i p ++ extractPagesFrom (i + 1) ps

/-- src/utils.py lines 35-99: reconstruct lines from the per-page character
streams (pages numbered from 1). -/
def extract_lines (pages : List (List PyChar)) : List Line :=
  extractPagesFrom 1 pages

/-! ## src/utils.py: detect_headers_footers (Step 2) -/

/-- src/main.py line 20: `max(line["page"] for line in lines) if lines else 1`. -/
def totalPages : List Line → ℕ
  | [] => 1
  | l :: ls => ls.foldl (fun a x => max a x.page) l.page

/-- The distinct pages on which a given rounded y occurs. -/
def pagesOfY (lines : List Line) (yk : ℚ) : List ℕ :=
  dedupKeep ((lines.filter fun l => decide (round1 l.y = yk)).map (·.page))

/-- The distinct pages on which a given normalized text occurs. -/
def pagesOfText (lines : List Line) (t : PyStr) : List ℕ :=
  dedupKeep ((lines.filter fun l => decide (normalize l.text = t)).map (·.page))

/-- src/utils.py lines 102-127: header y-set, footer y-set and repeated
boilerplate texts.  The threshold is `max(2, total_pages * 0.6)`. -/
def detect_headers_footers (lines : List Line) (total_pages : ℕ) :
    List ℚ × List ℚ × List PyStr :=
  let thr : ℚ := max 2 ((total_pages : ℚ) * (6/10))
  let texts := dedupKeep (lines.map fun l => normalize l.text)
  let repeated_texts := texts.filter fun t =>
    decide (((pagesOfText lines t).length : ℚ) ≥ thr) &&
    !digitsFull (stripL t) && !romanFull (stripL t)
  let ys := dedupKeep (lines.map fun l => round1 l.y)
  let header_ys := ys.filter fun y =>
    decide (((pagesOfY lines y).length : ℚ) ≥ thr) && decide (y < 120)
  let footer_ys := ys.filter fun y =>
    decide (((pagesOfY lines y).length : ℚ) ≥ thr) && !decide (y < 120) && decide (y > 650)
  (header_ys, footer_ys, repeated_texts)

/-! ## src/utils.py: get_font_size_levels (Step 3) -/

/-- Dict lookup (Python float keys are exact rationals here, so structural
equality on ℚ matches Python's value equality). -/
def dlookup (k : ℚ) : List (ℚ × PyStr) → Option PyStr
  | [] => none
  | p :: rest => if p.1 = k then some p.2 else dlookup k rest

/-- Dict assignment `d[k] = v`: overwrite in place when the key is present,
otherwise append (Python dict keeps insertion order). -/
def dinsert (d : List (ℚ × PyStr)) (k : ℚ) (v : PyStr) : List (ℚ × PyStr) :=
  if (dlookup k d).isSome then d.map fun p => if p.1 = k then (k, v) else p
  else d ++ [(k, v)]

/-- One conditional assignment `if len(p) > k: levels[p[k]] = v` (the key is
present exactly when `p.get? k` is `some`). -/
def optAssign (d : List (ℚ × PyStr)) (o : Option ℚ) (v : PyStr) :
    List (ℚ × PyStr) :=
  match o with
  | some s => dinsert d s v
  | none => d

/-- src/utils.py lines 147-155: assign H1..H4 to the first four potential
heading fonts (largest first). -/
def initLevels (p : List ℚ) : List (ℚ × PyStr) :=
  optAssign
    (optAssign
      (optAssign
        (optAssign [] (p.get? 0) (hStr 1))
        (p.get? 1) (hStr 2))
      (p.get? 2) (hStr 3))
    (p.get? 3) (hStr 4)

/-- src/utils.py lines 157-181: the targeted font promotion/demotion body,
applied for one (size, font_name) key of font_style_counts. -/
def promoteFont (d : List (ℚ × PyStr)) (size : ℚ) (fname : PyStr) :
    List (ℚ × PyStr) :=
  let d :=
    if containsSub fname (pyStr "Arial-Black") then
      if size = 3204/100 then dinsert d size (hStr 1)
      else if size = 2004/100 then dinsert d size (hStr 1)
      else if size = 1596/100 then d
      else if size = 12 then
        if (match dlookup size d with
            | none => true
            | some v => decide (v ≠ hStr 1) && decide (v ≠ hStr 2)) then
          dinsert d size (hStr 2)
        else d
      else d
    else d
  if containsSub fname (pyStr "ArialMT") then
    if size = 24 then dinsert d size (hStr 1)
    else if size = 2004/100 then dinsert d size (hStr 3)
    else if size = 1596/100 && containsSub fname (pyStr "Bold") then
      dinsert d size (hStr 1)
    else if size = 1104/100 && containsSub fname (pyStr "Bold") &&
            containsSub fname (pyStr "Italic") then dinsert d size (hStr 3)
    else d
  else d

/-- src/utils.py lines 183-192: re-sort the assigned sizes descending and
hand out H1..H4 in order, dropping anything past the fourth size. -/
def reassignGo : List ℚ → ℕ → List (ℚ × PyStr)
  | [], _ => []
  | s :: ss, h => if h ≤ 4 then (s, hStr h) :: reassignGo ss (h + 1) else []

/-- src/utils.py lines 131-136: body font size.  Note the source builds
`Counter(filtered_font_sizes_for_body)` from the *distinct* sizes of
`font_size_counts.items()`, so every count in that Counter is 1 and
`most_common(1)` returns the first qualifying size in insertion order. -/
def bodyFontSize (lines : List Line) : ℚ :=
  let font_size_counts := countOccs (lines.map fun l => round2 l.font_size)
  let filtered_font_sizes_for_body :=
    (font_size_counts.filter fun p => decide (p.1 ≥ 9)).map (·.1)
  (mostCommon1 (countOccs filtered_font_sizes_for_body)).getD 10

/-- src/utils.py lines 142-145: sizes above body size occurring in fewer
than 35% of the lines, sorted descending. -/
def potentialHeadingFonts (lines : List Line) : List ℚ :=
  (((countOccs (lines.map fun l => round2 l.font_size)).filter fun p =>
      decide (p.1 > bodyFontSize lines) &&
      decide ((p.2 : ℚ) < (lines.length : ℚ) * (35/100))).map (·.1)).insertionSort geQ

/-- src/utils.py lines 147-181: the `levels` dict after the initial H1..H4
assignment and the targeted font promotions. -/
def fontLevelsDict (lines : List Line) : List (ℚ × PyStr) :=
  (countOccs (lines.map fun l => (round2 l.font_size, l.font))).foldl
    (fun d p => promoteFont d p.1.1 p.1.2) (initLevels (potentialHeadingFonts lines))

/-- src/utils.py line 184: `actual_heading_sizes`, descending. -/
def significantSizes (lines : List Line) : List ℚ :=
  ((fontLevelsDict lines).map (·.1)).insertionSort geQ

/-- src/utils.py lines 130-194: font levels (reassigned strictly by size),
the descending significant sizes, and the body font size. -/
def get_font_size_levels (lines : List Line) :
    List (ℚ × PyStr) × List ℚ × ℚ :=
  (reassignGo (significantSizes lines) 1, significantSizes lines, bodyFontSize lines)

/-! ## src/utils.py: extract_title (Step 4) -/

def rfpTitle : PyStr :=
  pyStr "RFP:Request for Proposal To Present a Proposal for Developing the Business Plan for the Ontario Digital Library  "

/-- src/utils.py lines 258-273: group the sorted candidate lines; a line
joins the current group when it is vertically close to and horizontally
aligned with the group's last line.  `last` is the group's last line and
`acc` holds the normalized texts of the current group, in order. -/
def titleGroupsGo (last : Line) (acc : List PyStr) : List Line → List PyStr
  | [] => [joinSpace acc]
  | cur :: rest =>
    if decide (cur.y - last.y < last.font_size * (15/10)) &&
       decide (|cur.x0 - last.x0| < last.font_size * 1) then
      titleGroupsGo cur (acc ++ [normalize cur.text]) rest
    else joinSpace acc :: titleGroupsGo cur [normalize cur.text] rest

def titleGroups : List Line → List PyStr
  | [] => []
  | p :: rest => titleGroupsGo p [normalize p.text] rest

/-- src/utils.py lines 225-313: the general (non-fingerprint) title path. -/
def generalTitle (first_page_lines : List Line) (header_ys footer_ys : List ℚ)
    (repeated_texts : List PyStr) : PyStr :=
  let title_candidates := first_page_lines.filter fun l =>
    let text := normalize l.text
    !((containsSub text (pyStr "Ontario's Libraries") && decide (l.font_size = 1596/100)) ||
      (containsSub text (pyStr "Working Together") && decide (l.font_size = 1596/100))) &&
    !decide (l.y ∈ header_ys) && !decide (l.y ∈ footer_ys) &&
    !decide (text ∈ repeated_texts) &&
    !digitsFull text && !romanFull text &&
    decide (l.y < 400)
  match title_candidates with
  | [] => []
  | c :: cs =>
    let max_font_size : ℚ := cs.foldl (fun a l => max a l.font_size) c.font_size
    let potential_title_lines := title_candidates.filter fun l =>
      decide (l.font_size ≥ max_font_size * (7/10))
    let sorted := potential_title_lines.insertionSort titleLe
    let merged_title_parts := titleGroups sorted
    let title := stripL (joinSpace merged_title_parts)
    clean_doubled_text_aggressive title

/-- src/utils.py lines 197-313: title extraction with the document-type
fingerprint checks on the joined normalized page-1 text. -/
def extract_title (lines : List Line) (header_ys footer_ys : List ℚ)
    (repeated_texts : List PyStr) : PyStr :=
  let first_page_lines := lines.filter fun l => decide (l.page = 1)
  if first_page_lines.isEmpty then []
  else
    let first_page_text := joinSpace (first_page_lines.map fun l => normalize l.text)
    if containsSub first_page_text (pyStr "Application form for grant of LTC advance") then
      pyStr "Application form for grant of LTC advance  "
    else if containsSub first_page_text (pyStr "Foundation Level Extensions") &&
            containsSub first_page_text (pyStr "Overview") then
      pyStr "Overview  Foundation Level Extensions  "
    else if containsSub first_page_text (pyStr "Request for Proposal") &&
            containsSub first_page_text (pyStr "Ontario Digital Library") then rfpTitle
    else if containsSub first_page_text (pyStr "Parsippany") &&
            containsSub first_page_text (pyStr "STEM Pathways") then
      pyStr "Parsippany -Troy Hills STEM Pathways"
    else if containsSub first_page_text (pyStr "HOPE To SEE You THERE") then []
    else if containsSub first_page_text (pyStr "RFP") &&
            containsSub first_page_text (pyStr "Request for Proposal") then rfpTitle
    else if containsSub first_page_text (pyStr "Ontario Digital Library") &&
            containsSub first_page_text (pyStr "Request for Proposal") then rfpTitle
    else generalTitle first_page_lines header_ys footer_ys repeated_texts

/-! ## src/utils.py: classify_headings (Step 5) -/

/-- The shared shape `\d+\.` at the start: a non-empty digit run followed by
a literal dot; returns what follows the dot.  (The digit run before a literal
dot is exactly the maximal one, since a shorter match would leave a digit
where the dot must be.) -/
def afterIntDot (t : PyStr) : Option PyStr :=
  let ds := t.takeWhile pyIsDigit
  if ds.isEmpty then none
  else
    match t.drop ds.length with
    | 46 :: rest => some rest
    | _ => none

/-- `^\d+\.\s*(.+)$` on newline-free text: after `\d+\.` any non-empty rest
matches `\s*(.+)`. -/
def matchD1 (t : PyStr) : Bool :=
  match afterIntDot t with
  | some rest => !rest.isEmpty
  | none => false

/-- `\d+\s*(.+)$` on newline-free text: a digit head and at least one more
character (the trailing `\d+` may backtrack to leave a non-empty tail). -/
def digitThenMore : PyStr → Bool
  | c :: _ :: _ => pyIsDigit c
  | _ => false

/-- `^\d+\.\d+\s*(.+)$`. -/
def matchD2 (t : PyStr) : Bool :=
  match afterIntDot t with
  | some rest => digitThenMore rest
  | none => false

/-- `^\d+\.\d+\.\d+\s*(.+)$`. -/
def matchD3 (t : PyStr) : Bool :=
  match afterIntDot t with
  | some rest =>
    (match afterIntDot rest with
     | some r2 => digitThenMore r2
     | none => false)
  | none => false

/-- `^\d+\.\d+\.\d+\.\d+\s*(.+)$`. -/
def matchD4 (t : PyStr) : Bool :=
  match afterIntDot t with
  | some rest =>
    (match afterIntDot rest with
     | some r2 =>
       (match afterIntDot r2 with
        | some r3 => digitThenMore r3
        | none => false)
     | none => false)
  | none => false

/-- src/utils.py lines 27-32: the numbered-heading matchers with their depth. -/
def NUMBERED_HEADING_REGEXES : List ((PyStr → Bool) × ℕ) :=
  [(matchD1, 1), (matchD2, 2), (matchD3, 3), (matchD4, 4)]

/-- src/utils.py lines 441-448: the font-implied level candidate.  Scan the
significant sizes descending, take the level mapped to the first size the
line's rounded size meets within 0.5; if that yields nothing and the size
exceeds body size by more than 1 unit, default to "H4". -/
def candFor (font_levels : List (ℚ × PyStr)) (significant_font_sizes : List ℚ)
    (body fs : ℚ) : Option PyStr :=
  let c :=
    match (significant_font_sizes.insertionSort geQ).find?
        (fun s => decide (fs ≥ s - 1/2)) with
    | some s => dlookup s font_levels
    | none => none
  if !truthy c && decide (fs > body + 1) then some (hStr 4) else c

/-- src/utils.py lines 453-496: the numbering heuristic.  Walks the regex
list in order; IMPORTANT: the `continue` in the depth-1 indentation check
(line 475) continues the *regex* loop (after setting prev_line to the line
itself), so later regexes are still tried.  The returned Bool records
whether that path ran (prev_line was then already set to the current line
when the later heuristics execute). -/
def h1Go (initial_body_x0 : ℚ) (cand : Option PyStr) (x0 : ℚ) (text : PyStr) :
    List ((PyStr → Bool) × ℕ) → Bool → Option PyStr × Bool
  | [], flag => (none, flag)
  | (m, depth) :: rest, flag =>
    if m text then
      let assigned : PyStr :=
        if depth = 1 then hStr 3
        else if depth = 2 then hStr 3
        else hStr 4
      if depth = 1 && decide (x0 > initial_body_x0 + 15) then
        h1Go initial_body_x0 cand x0 text rest true
      else
        let assigned :=
          if depth = 2 && decide (x0 > initial_body_x0 + 10) &&
             decide (cand ≠ some (hStr 1)) && decide (cand ≠ some (hStr 2)) then
            hStr 4
          else assigned
        let assigned :=
          if truthy cand && !assigned.isEmpty && pyStrLtB (cand.getD []) assigned then
            cand.getD []
          else assigned
        (some assigned, flag)
    else h1Go initial_body_x0 cand x0 text rest flag

/-- src/utils.py lines 325-331: the indentation baseline from body-font,
non-header/footer, non-numeral lines on pages 2+ (most common x0, default 90). -/
def initialBodyX0 (sorted_lines : List Line) (header_ys footer_ys : List ℚ)
    (body : ℚ) : ℚ :=
  let xs := (sorted_lines.filter fun l =>
    decide (l.page > 1) && decide (l.font_size = body) &&
    !decide (l.y ∈ header_ys) && !decide (l.y ∈ footer_ys) &&
    !digitsFull (normalize l.text)).map (·.x0)
  (mostCommon1 (countOccs xs)).getD 90

/-- src/utils.py line 337: the joined normalized page-1 text. -/
def fpText (ls : List Line) : PyStr :=
  joinSpace ((ls.filter fun l => decide (l.page = 1)).map fun l => normalize l.text)

/-- src/utils.py lines 417-567: the main classification loop.  One step per
line of the sorted list; `prev` is the previously iterated line and `seen`
the set of emitted (text, page, y, x0) keys. -/
def classifyLoop (header_ys footer_ys : List ℚ) (repeated_texts : List PyStr)
    (font_levels : List (ℚ × PyStr)) (significant_font_sizes : List ℚ)
    (body initial_body_x0 : ℚ) :
    List Line → Option Line → List (PyStr × ℕ × ℚ × ℚ) → List RawEntry
  | [], _, _ => []
  | line :: rest, prev, seen =>
    let next := fun seen' => classifyLoop header_ys footer_ys repeated_texts
      font_levels significant_font_sizes body initial_body_x0 rest (some line) seen'
    let text := normalize line.text
    if text.isEmpty || decide (text.length < 3) || !text.any pyIsAlpha then next seen
    else if decide (line.y ∈ header_ys) || decide (line.y ∈ footer_ys) then next seen
    else if decide (text ∈ repeated_texts) then next seen
    else if digitsFull text || romanFull text then next seen
    else
      let key := (text, line.page, line.y, line.x0)
      if decide (key ∈ seen) then next seen
      else
        let font_size := round2 line.font_size
        let font_name := line.font
        let cand := candFor font_levels significant_font_sizes body font_size
        match h1Go initial_body_x0 cand line.x0 text NUMBERED_HEADING_REGEXES false with
        | (some lvl, _) =>
          { level := lvl, text := normalize text, page := line.page,
            y := line.y, x0 := line.x0, font_size := line.font_size } ::
            next (key :: seen)
        | (none, prevSetToSelf) =>
          if truthy cand then
            { level := cand.getD [], text := text, page := line.page,
              y := line.y, x0 := line.x0, font_size := line.font_size } ::
              next (key :: seen)
          else if is_all_caps text then
            let lvl :=
              if decide (line.x0 > initial_body_x0 + 20) then hStr 3
              else if decide (font_size < body + 2) then hStr 3
              else hStr 2
            { level := lvl, text := text, page := line.page,
              y := line.y, x0 := line.x0, font_size := line.font_size } ::
              next (key :: seen)
          else
            -- the depth-1 `continue` already set prev_line to this very line
            let prevEff := if prevSetToSelf then some line else prev
            match prevEff with
            | some p =>
              if decide (line.page = p.page) &&
                 decide (line.x0 < initial_body_x0 - 5) &&
                 decide (line.y - p.y > body * 2) &&
                 decide (text.length > 5) && text.any pyIsAlpha then
                let is_bold := containsSub font_name (pyStr "Bold") ||
                  containsSub font_name (pyStr "Black") ||
                  containsSub font_name (pyStr "Heavy")
                let lvl :=
                  if is_bold && decide (font_size > body) then hStr 2
                  else if is_bold then hStr 3
                  else hStr 4
                { level := lvl, text := text, page := line.page,
                  y := line.y, x0 := line.x0, font_size := line.font_size } ::
                  next (key :: seen)
              else next seen
            | none => next seen

/-- src/utils.py lines 577-588: whether the next entry continues the current
merge group (page, level, vertical and horizontal closeness are measured
against the group's first entry). -/
def mergeNear (cur : RawEntry) (e : RawEntry) : Bool :=
  decide (e.page = cur.page) && decide (e.level = cur.level) &&
  decide (e.y - cur.y < cur.font_size * (15/10)) &&
  decide (|e.x0 - cur.x0| < cur.font_size * 1)

/-- src/utils.py lines 569-597: merge consecutive same-page same-level
entries when close; a short next entry that does not start a capitalized
sentence is appended to the merged text, anything else ends the group. -/
def mergeGo (cur : RawEntry) (acc : PyStr) : List RawEntry → List MergedEntry
  | [] => [{ level := cur.level, text := normalize acc, page := cur.page,
             y := cur.y, x0 := cur.x0 }]
  | e :: rest =>
    if mergeNear cur e &&
       (decide ((splitWS e.text).length < 7) && !startsCapLower e.text) then
      mergeGo cur (acc ++ 32 :: e.text) rest
    else
      { level := cur.level, text := normalize acc, page := cur.page,
        y := cur.y, x0 := cur.x0 } :: mergeGo e e.text rest

def mergeOutline : List RawEntry → List MergedEntry
  | [] => []
  | e :: rest => mergeGo e e.text rest

/-- src/utils.py lines 600-606: deduplicate by (level, text, page), keeping
first occurrences. -/
def dedupGo : List MergedEntry → List (PyStr × PyStr × ℕ) → List MergedEntry
  | [], _ => []
  | e :: rest, seen =>
    if decide ((e.level, e.text, e.page) ∈ seen) then dedupGo rest seen
    else e :: dedupGo rest ((e.level, e.text, e.page) :: seen)

def dedupOutline (l : List MergedEntry) : List MergedEntry := dedupGo l []

/-- src/utils.py line 608: the final sort by (page, y, x0). -/
def sortOutline (l : List MergedEntry) : List MergedEntry := l.insertionSort meLe

/-- src/utils.py lines 611-614: pop the transient y/x0 (font_size is already
gone after the merge step). -/
def stripME (e : MergedEntry) : Entry :=
  { level := e.level, text := e.text, page := e.page }

/-- The general-path outline of classify_headings just before the transient
fields are stripped: loop, merge, dedup, sort. -/
def cleanedOutline (lines : List Line) (header_ys footer_ys : List ℚ)
    (repeated_texts : List PyStr) (font_levels : List (ℚ × PyStr))
    (significant_font_sizes : List ℚ) (body : ℚ) : List MergedEntry :=
  let sorted := sortLines lines
  let initial := initialBodyX0 sorted header_ys footer_ys body
  sortOutline (dedupOutline (mergeOutline
    (classifyLoop header_ys footer_ys repeated_texts font_levels
      significant_font_sizes body initial sorted none [])))

/-- src/utils.py lines 344-362: the fixed outline for the Foundation Level
Extensions document. -/
def foundationOutline : List Entry :=
  [ { level := hStr 1, text := pyStr "Revision History ", page := 2 },
    { level := hStr 1, text := pyStr "Table of Contents ", page := 3 },
    { level := hStr 1, text := pyStr "Acknowledgements ", page := 4 },
    { level := hStr 1, text := pyStr "1. Introduction to the Foundation Level Extensions ", page := 5 },
    { level := hStr 1, text := pyStr "2. Introduction to Foundation Level Agile Tester Extension ", page := 6 },
    { level := hStr 2, text := pyStr "2.1 Intended Audience ", page := 6 },
    { level := hStr 2, text := pyStr "2.2 Career Paths for Testers ", page := 6 },
    { level := hStr 2, text := pyStr "2.3 Learning Objectives ", page := 6 },
    { level := hStr 2, text := pyStr "2.4 Entry Requirements ", page := 7 },
    { level := hStr 2, text := pyStr "2.5 Structure and Course Duration ", page := 7 },
    { level := hStr 2, text := pyStr "2.6 Keeping It Current ", page := 8 },
    { level := hStr 1, text := pyStr "3. Overview of the Foundation Level Extension â€“ Agile TesterSyllabus ", page := 9 },
    { level := hStr 2, text := pyStr "3.1 Business Outcomes ", page := 9 },
    { level := hStr 2, text := pyStr "3.2 Content ", page := 9 },
    { level := hStr 1, text := pyStr "4. References ", page := 11 },
    { level := hStr 2, text := pyStr "4.1 Trademarks ", page := 11 },
    { level := hStr 2, text := pyStr "4.2 Documents and Web Sites ", page := 11 } ]

/-- src/utils.py lines 363-405: the fixed outline for the Ontario Digital
Library document. -/
def ontarioOutline : List Entry :=
  [ { level := hStr 1, text := pyStr "Ontario's Digital Library ", page := 1 },
    { level := hStr 1, text := pyStr "A Critical Component for Implementing Ontario's Road Map to Prosperity Strategy ", page := 1 },
    { level := hStr 2, text := pyStr "Summary ", page := 1 },
    { level := hStr 3, text := pyStr "Timeline: ", page := 1 },
    { level := hStr 2, text := pyStr "Background ", page := 2 },
    { level := hStr 3, text := pyStr "Equitable access for all Ontarians: ", page := 3 },
    { level := hStr 3, text := pyStr "Shared decision-making and accountability: ", page := 3 },
    { level := hStr 3, text := pyStr "Shared governance structure: ", page := 3 },
    { level := hStr 3, text := pyStr "Shared funding: ", page := 3 },
    { level := hStr 3, text := pyStr "Local points of entry: ", page := 4 },
    { level := hStr 3, text := pyStr "Access: ", page := 4 },
    { level := hStr 3, text := pyStr "Guidance and Advice: ", page := 4 },
    { level := hStr 3, text := pyStr "Training: ", page := 4 },
    { level := hStr 3, text := pyStr "Provincial Purchasing & Licensing: ", page := 4 },
    { level := hStr 3, text := pyStr "Technological Support: ", page := 4 },
    { level := hStr 3, text := pyStr "What could the ODL really mean? ", page := 4 },
    { level := hStr 4, text := pyStr "For each Ontario citizen it could mean: ", page := 4 },
    { level := hStr 4, text := pyStr "For each Ontario student it could mean: ", page := 4 },
    { level := hStr 4, text := pyStr "For each Ontario library it could mean: ", page := 5 },
    { level := hStr 4, text := pyStr "For the Ontario government it could mean: ", page := 5 },
    { level := hStr 2, text := pyStr "The Business Plan to be Developed ", page := 5 },
    { level := hStr 3, text := pyStr "Milestones ", page := 6 },
    { level := hStr 2, text := pyStr "Approach and Specific Proposal Requirements ", page := 6 },
    { level := hStr 2, text := pyStr "Evaluation and Awarding of Contract ", page := 7 },
    { level := hStr 2, text := pyStr "Appendix A: ODL Envisioned Phases & Funding ", page := 8 },
    { level := hStr 3, text := pyStr "Phase I: Business Planning ", page := 8 },
    { level := hStr 3, text := pyStr "Phase II: Implementing and Transitioning ", page := 8 },
    { level := hStr 3, text := pyStr "Phase III: Operating and Growing the ODL ", page := 8 },
    { level := hStr 2, text := pyStr "Appendix B: ODL Steering Committee Terms of Reference ", page := 10 },
    { level := hStr 3, text := pyStr "1. Preamble ", page := 10 },
    { level := hStr 3, text := pyStr "2. Terms of Reference ", page := 10 },
    { level := hStr 3, text := pyStr "3. Membership ", page := 10 },
    { level := hStr 3, text := pyStr "4. Appointment Criteria and Process ", page := 11 },
    { level := hStr 3, text := pyStr "5. Term ", page := 11 },
    { level := hStr 3, text := pyStr "6. Chair ", page := 11 },
    { level := hStr 3, text := pyStr "7. Meetings ", page := 11 },
    { level := hStr 3, text := pyStr "8. Lines of Accountability and Communication ", page := 11 },
    { level := hStr 3, text := pyStr "9. Financial and Administrative Policies ", page := 12 },
    { level := hStr 2, text := pyStr "Appendix C: ODL's Envisioned Electronic Resources ", page := 13 } ]

/-- src/utils.py lines 406-410: the fixed outline for the STEM Pathways
document. -/
def stemOutline : List Entry :=
  [ { level := hStr 1, text := pyStr "PATHWAY OPTIONS", page := 0 } ]

/-- src/utils.py lines 411-415: the fixed outline for the flyer document. -/
def hopeOutline : List Entry :=
  [ { level := hStr 1, text := pyStr "HOPE To SEE You THERE! ", page := 0 } ]

/-- src/utils.py lines 316-616: classify_headings.  Sorts the lines in
place, computes the indentation baseline, runs the document-fingerprint
overrides, and otherwise the heuristic chain with merge/dedup/sort and the
final stripping of the transient fields. -/
def classify_headings (lines : List Line) (header_ys footer_ys : List ℚ)
    (repeated_texts : List PyStr) (font_levels : List (ℚ × PyStr))
    (significant_font_sizes : List ℚ) (body : ℚ) : List Entry :=
  let sorted := sortLines lines
  let first_page_text := fpText sorted
  if containsSub first_page_text (pyStr "Application form for grant of LTC advance") then []
  else if containsSub first_page_text (pyStr "Foundation Level Extensions") then
    foundationOutline
  else if containsSub first_page_text (pyStr "Ontario Digital Library") then
    ontarioOutline
  else if containsSub first_page_text (pyStr "STEM Pathways") then stemOutline
  else if containsSub first_page_text (pyStr "HOPE To SEE You THERE") then hopeOutline
  else
    (cleanedOutline lines header_ys footer_ys repeated_texts font_levels
      significant_font_sizes body).map stripME

/-! ## src/main.py: the per-document pipeline -/

/-- src/main.py lines 19-45 (minus file I/O): extract lines, detect
headers/footers, infer font levels, extract the title (on the unsorted
list, before classify_headings reorders it), classify, and build the
output record; the outline field is always present, defaulting to []. -/
def processDocument (lines : List Line) : OutputData :=
  let total_pages := totalPages lines
  let hfr := detect_headers_footers lines total_pages
  let fsl := get_font_size_levels lines
  let title := extract_title lines hfr.1 hfr.2.1 hfr.2.2
  let outline := classify_headings lines hfr.1 hfr.2.1 hfr.2.2 fsl.1 fsl.2.1 fsl.2.2
  { title := title, outline := if outline.isEmpty then [] else outline }

/-! ## Concrete inputs and auxiliary predicates used by the claim theorems -/

/-- Three lines whose rounded font sizes are 12, 10, 10: the most frequent
size at or above 9 is 10 (two lines), yet the code returns 12. -/
def c1Lines : List Line :=
  [ { text := pyStr "aaaa", font := pyStr "F", font_size := 12, x0 := 0, y := 0, page := 1 },
    { text := pyStr "bbbb", font := pyStr "F", font_size := 10, x0 := 0, y := 10, page := 1 },
    { text := pyStr "cccc", font := pyStr "F", font_size := 10, x0 := 0, y := 20, page := 1 } ]

/-- One line "2.1 ab" whose x0 exceeds the default baseline 90 by 12 units
(more than 10, at most 15), at body font size, with no font-implied level. -/
def c2Line : Line :=
  { text := pyStr "2.1 ab", font := pyStr "F", font_size := 10,
    x0 := 102, y := 100, page := 1 }

def c3A : Line :=
  { text := pyStr "aaaa aa", font := pyStr "F", font_size := 10,
    x0 := 90, y := 100, page := 1 }

def c3B : Line :=
  { text := pyStr "bbbb bb", font := pyStr "F", font_size := 10,
    x0 := 80, y := 130, page := 1 }

def c3Both : List Line := [c3A, c3B]

def c4Lines : List Line :=
  [ { text := pyStr "aa", font := pyStr "Ff", font_size := 10, x0 := 0, y := 0, page := 1 },
    { text := pyStr "ab", font := pyStr "Ff", font_size := 10, x0 := 0, y := 10, page := 1 },
    { text := pyStr "ac", font := pyStr "Ff", font_size := 10, x0 := 0, y := 20, page := 1 },
    { text := pyStr "ad", font := pyStr "Ff", font_size := 10, x0 := 0, y := 30, page := 1 },
    { text := pyStr "ae", font := pyStr "Ff", font_size := 20, x0 := 0, y := 40, page := 1 },
    { text := pyStr "af", font := pyStr "Ff", font_size := 16, x0 := 0, y := 50, page := 1 } ]

/-- The (level, text, page) key of a merged entry. -/
def meKey (e : MergedEntry) : PyStr × PyStr × ℕ := (e.level, e.text, e.page)

/-- Every whitespace character of s is the plain space 32. -/
def wsCanon (s : PyStr) : Prop := ∀ c ∈ s, pyIsSpace c = true → c = 32

/-- No two adjacent whitespace characters. -/
def noTwoSp (s : PyStr) : Prop :=
  List.Chain' (fun a b => ¬(pyIsSpace a = true ∧ pyIsSpace b = true)) s

/-- The first character, if any, is not whitespace. -/
def headNotSp (s : PyStr) : Prop := ∀ c ∈ s.head?, pyIsSpace c = false

/-- The last character, if any, is not whitespace. -/
def lastNotSp (s : PyStr) : Prop := ∀ c ∈ s.getLast?, pyIsSpace c = false

/-- The canonical form reached by `normalize`: whitespace only as single
internal plain spaces, and none of the five specially replaced characters. -/
def NF (s : PyStr) : Prop :=
  wsCanon s ∧ noTwoSp s ∧ headNotSp s ∧ lastNotSp s ∧
  (0x2019 : Nat) ∉ s ∧ (0x201C : Nat) ∉ s ∧ (0x201D : Nat) ∉ s ∧ (0x200B : Nat) ∉ s

/-- "a ​ b" with a zero-width space between the two spaces. -/
def c6Text : PyStr := [97, 32, 0x200B, 32, 98]

def c7Title : PyStr := pyStr "x y: x y x y: x y"

def c8CharA : PyChar :=
  { text := pyStr "A", fontname := pyStr "F", size := 12, width := 5, x0 := 0, top := 0 }

def c8CharB : PyChar :=
  { text := pyStr "B", fontname := pyStr "F", size := 0, width := 5, x0 := 5, top := 0 }

/-- The single line extracted from `[[c8CharA]]`. -/
def c8LineA : Line :=
  { text := [65], font := pyStr "F", font_size := 12, x0 := 0, y := 0, page := 1 }

/-! ## Claim C1 -/

/-- C1 (code bug, evaluation at the failing input): get_font_size_levels is
claimed to return the most frequent rounded size ≥ 9 as the body size.  On
`c1Lines` the size counts are 12 ↦ 1 and 10 ↦ 2, so that most frequent size
is 10 — but the function returns 12, because
`Counter(filtered_font_sizes_for_body)` is built from the *distinct* sizes
(every count 1) and `most_common(1)` then yields the first qualifying size
in insertion order, discarding the real frequencies. -/
theorem c1_most_frequent_body_size_bug :
    (get_font_size_levels c1Lines).2.2 = 12 ∧
    countOccs (c1Lines.map fun l => round2 l.font_size) = [(12, 1), (10, 2)] ∧
    (12 : ℚ) ≠ 10 := by
  with_unfolding_all decide

/-! ## Claim C2 -/

/-- C2 (counterexample): the claim says a depth-2 numbered line indented
more than 10 units past the baseline with font-implied level neither H1 nor
H2 is assigned H4.  On `c2Line` every hypothesis holds (depth-2 pattern
matches, baseline is 90, x0 = 102 > 100, candidate is none), yet
classify_headings emits it at level H3: the depth-1 regex matches "2.1 ab"
first, and its list-item check only fires above baseline + 15, so the
depth-2 demotion branch is never reached here. -/
theorem c2_depth2_demotion_counterexample :
    matchD2 (normalize c2Line.text) = true ∧
    initialBodyX0 (sortLines [c2Line]) [] [] 10 = 90 ∧
    c2Line.x0 > 90 + 10 ∧
    candFor [] [] 10 (round2 c2Line.font_size) = none ∧
    classify_headings [c2Line] [] [] [] [] [] 10 =
      [{ level := hStr 3, text := pyStr "2.1 ab", page := 1 }] ∧
    hStr 3 ≠ hStr 4 := by
  with_unfolding_all decide

/-- A depth-2 match is in particular a depth-1 match (the depth-1 regex
accepts any non-empty tail after the first "N."). -/
theorem matchD2_matchD1 {t : PyStr} (h : matchD2 t = true) : matchD1 t = true := by
  unfold matchD2 at h
  unfold matchD1
  cases ha : afterIntDot t with
  | none => rw [ha] at h; simp at h
  | some rest =>
    rw [ha] at h
    cases rest with
    | nil => simp [digitThenMore] at h
    | cons c cs =>
      cases cs with
      | nil => simp [digitThenMore] at h
      | cons d ds => simp

/-- C2 (amended): the depth-2 demotion in the numbering rule actually fires
only for lines indented more than 15 units past the baseline (otherwise the
depth-1 branch handles the line and assigns H3), and it is kept only when
the font-implied candidate does not string-compare below "H4" — i.e. the
candidate is not a truthy H1, H2 or H3.  Under those conditions the
numbering rule assigns H4. -/
theorem c2_depth2_demotion_amended (initial x0 : ℚ) (cand : Option PyStr)
    (text : PyStr) (hm : matchD2 text = true) (hx : x0 > initial + 15)
    (hc : truthy cand = true → cand = some (hStr 4)) :
    (h1Go initial cand x0 text NUMBERED_HEADING_REGEXES false).1 = some (hStr 4) := by
  have hm1 : matchD1 text = true := matchD2_matchD1 hm
  have hx10 : x0 > initial + 10 := by linarith
  have hc1 : cand ≠ some (hStr 1) := by
    intro e
    have := hc (by rw [e]; rfl)
    rw [e] at this
    simp [hStr] at this
  have hc2 : cand ≠ some (hStr 2) := by
    intro e
    have := hc (by rw [e]; rfl)
    rw [e] at this
    simp [hStr] at this
  simp only [NUMBERED_HEADING_REGEXES, h1Go, hm1, hm, if_true,
    decide_eq_true hx, decide_eq_true hx10, decide_eq_true hc1,
    decide_eq_true hc2]
  cases htr : truthy cand with
  | false => simp [htr]
  | true =>
    have hcv := hc htr
    subst hcv
    simp [hStr, pyStrLtB, truthy]

/-- C2 (amended, witness): at baseline 90, x0 = 106 > 105, no font
candidate, text "2.1 ab", the numbering rule assigns H4. -/
theorem c2_depth2_demotion_amended_witness :
    matchD2 (pyStr "2.1 ab") = true ∧ ((106 : ℚ) > 90 + 15) ∧
    (h1Go 90 none 106 (pyStr "2.1 ab") NUMBERED_HEADING_REGEXES false).1 =
      some (hStr 4) :=
  ⟨by decide, by norm_num,
   c2_depth2_demotion_amended 90 106 none (pyStr "2.1 ab") (by decide)
     (by norm_num) (by intro h; cases h)⟩

/-! ## Claim C3 -/

/-- C3 (counterexample): removing line `c3A` — which is in neither the
header/footer set nor the boilerplate set (all three sets are empty here) —
changes the classification of the other line `c3B` from H4 (emitted via the
indentation/vertical-gap fallback, which consults the preceding line) to
not classified at all. -/
theorem c3_locality_counterexample :
    c3A ∈ c3Both ∧
    detect_headers_footers c3Both (totalPages c3Both) = ([], [], []) ∧
    c3Both.erase c3A = [c3B] ∧
    (processDocument c3Both).outline =
      [{ level := hStr 4, text := pyStr "bbbb bb", page := 1 }] ∧
    (processDocument [c3B]).outline = [] := by
  with_unfolding_all decide

/-- C3 (amended): two-run locality fails for classify_headings — there is a
line list and a line in it, on no header/footer y-coordinate and not
boilerplate, whose removal (with the whole pipeline context recomputed)
changes the classification of another line.  The indentation + vertical-gap
fallback reads the immediately preceding line, and the font statistics and
indentation baseline are global, so classification is not local. -/
theorem c3_locality_amended :
    ∃ (L : List Line) (l : Line), l ∈ L ∧
      l.y ∉ (detect_headers_footers L (totalPages L)).1 ∧
      l.y ∉ (detect_headers_footers L (totalPages L)).2.1 ∧
      normalize l.text ∉ (detect_headers_footers L (totalPages L)).2.2 ∧
      (processDocument L).outline ≠ (processDocument (L.erase l)).outline := by
  refine ⟨c3Both, c3A, ?_⟩
  with_unfolding_all decide

/-! ## Claim C4 -/

/-- Two members of a pairwise list are equal or related one way. -/
theorem pairwise_mem_cases {α : Type} {R : α → α → Prop} :
    ∀ {l : List α}, List.Pairwise R l → ∀ {a b : α}, a ∈ l → b ∈ l →
      a = b ∨ R a b ∨ R b a := by
  intro l hl
  induction hl with
  | nil => intro a b ha _; simp at ha
  | cons hr _ ih =>
    intro a b ha hb
    rcases List.mem_cons.mp ha with rfl | ha2
    · rcases List.mem_cons.mp hb with rfl | hb2
      · exact Or.inl rfl
      · exact Or.inr (Or.inl (hr _ hb2))
    · rcases List.mem_cons.mp hb with rfl | hb2
      · exact Or.inr (Or.inr (hr _ ha2))
      · exact ih ha2 hb2

theorem dlookup_isSome_iff {k : ℚ} :
    ∀ {d : List (ℚ × PyStr)}, (dlookup k d).isSome = true ↔ k ∈ d.map (·.1) := by
  intro d
  induction d with
  | nil => simp [dlookup]
  | cons p rest ih =>
    by_cases h : p.1 = k
    · simp only [dlookup, if_pos h, Option.isSome_some, List.map_cons, true_iff]
      exact List.mem_cons.mpr (Or.inl h.symm)
    · simp only [dlookup, if_neg h, List.map_cons]
      rw [List.mem_cons]
      constructor
      · intro hs
        exact Or.inr (ih.mp hs)
      · rintro (he | hm)
        · exact absurd he.symm h
        · exact ih.mpr hm

theorem keys_map_overwrite (k : ℚ) (v : PyStr) :
    ∀ d : List (ℚ × PyStr),
      ((d.map fun p => if p.1 = k then (k, v) else p).map (·.1)) = d.map (·.1) := by
  intro d
  induction d with
  | nil => rfl
  | cons p rest ih =>
    simp only [List.map_cons, ih]
    by_cases h : p.1 = k
    · simp [h]
    · simp [h]

theorem dinsert_nodup {d : List (ℚ × PyStr)} {k : ℚ} {v : PyStr}
    (h : (d.map (·.1)).Nodup) : ((dinsert d k v).map (·.1)).Nodup := by
  unfold dinsert
  split
  · rw [keys_map_overwrite]; exact h
  · rename_i hno
    have hk : k ∉ d.map (·.1) := fun hkin => hno (dlookup_isSome_iff.mpr hkin)
    simp only [List.map_append, List.map_cons, List.map_nil]
    rw [List.nodup_append]
    refine ⟨h, List.nodup_singleton k, ?_⟩
    intro a ha hak
    rw [List.mem_singleton] at hak
    subst hak
    exact hk ha

theorem optAssign_nodup {d : List (ℚ × PyStr)} {o : Option ℚ} {v : PyStr}
    (h : (d.map (·.1)).Nodup) : ((optAssign d o v).map (·.1)).Nodup := by
  cases o with
  | none => exact h
  | some s => exact dinsert_nodup h

theorem initLevels_nodup (p : List ℚ) : ((initLevels p).map (·.1)).Nodup := by
  unfold initLevels
  apply optAssign_nodup
  apply optAssign_nodup
  apply optAssign_nodup
  apply optAssign_nodup
  simp

theorem promoteFont_nodup {d : List (ℚ × PyStr)} (size : ℚ) (fname : PyStr)
    (h : (d.map (·.1)).Nodup) : ((promoteFont d size fname).map (·.1)).Nodup := by
  unfold promoteFont
  split_ifs <;>
    first
      | assumption
      | exact dinsert_nodup h
      | exact dinsert_nodup (dinsert_nodup h)

theorem foldl_promote_nodup :
    ∀ (xs : List ((ℚ × PyStr) × ℕ)) (d : List (ℚ × PyStr)),
      (d.map (·.1)).Nodup →
      ((xs.foldl (fun d p => promoteFont d p.1.1 p.1.2) d).map (·.1)).Nodup := by
  intro xs
  induction xs with
  | nil => intro d h; exact h
  | cons x rest ih =>
    intro d h
    exact ih _ (promoteFont_nodup _ _ h)

theorem fontLevelsDict_nodup (lines : List Line) :
    ((fontLevelsDict lines).map (·.1)).Nodup :=
  foldl_promote_nodup _ _ (initLevels_nodup _)

/-- The significant sizes are strictly descending: sorted (≥) by
construction and with no duplicate keys. -/
theorem significantSizes_strict (lines : List Line) :
    List.Pairwise (· > ·) (significantSizes lines) := by
  have hsorted : List.Sorted geQ (significantSizes lines) :=
    List.sorted_insertionSort geQ _
  have hnodup : (significantSizes lines).Nodup :=
    (List.perm_insertionSort geQ _).nodup_iff.mpr (fontLevelsDict_nodup lines)
  have := List.Pairwise.and hsorted hnodup
  exact this.imp (by
    intro a b hab
    exact lt_of_le_of_ne hab.1 (fun e => hab.2 e.symm))

theorem levelRank_hStr (k : ℕ) : levelRank (hStr k) = k := by
  simp [hStr, levelRank]

theorem reassignGo_mem :
    ∀ (sizes : List ℚ) (h : ℕ) (p : ℚ × PyStr), p ∈ reassignGo sizes h →
      p.1 ∈ sizes ∧ ∃ k, h ≤ k ∧ k ≤ 4 ∧ p.2 = hStr k := by
  intro sizes
  induction sizes with
  | nil => intro h p hp; simp [reassignGo] at hp
  | cons s ss ih =>
    intro h p hp
    unfold reassignGo at hp
    split at hp
    · rcases List.mem_cons.mp hp with rfl | hp2
      · exact ⟨List.mem_cons_self _ _, h, le_refl h, by assumption, rfl⟩
      · obtain ⟨hmem, k, hk1, hk2, hk3⟩ := ih (h + 1) p hp2
        exact ⟨List.mem_cons_of_mem _ hmem, k, by omega, hk2, hk3⟩
    · simp at hp

theorem reassignGo_pairwise :
    ∀ (sizes : List ℚ) (h : ℕ), List.Pairwise (· > ·) sizes →
      List.Pairwise (fun p q : ℚ × PyStr =>
        p.1 > q.1 ∧ levelRank p.2 < levelRank q.2) (reassignGo sizes h) := by
  intro sizes
  induction sizes with
  | nil => intro h _; simp [reassignGo]
  | cons s ss ih =>
    intro h hpw
    rcases List.pairwise_cons.mp hpw with ⟨hhead, htail⟩
    unfold reassignGo
    split
    · refine List.Pairwise.cons ?_ (ih (h + 1) htail)
      intro q hq
      obtain ⟨hmem, k, hk1, _, hk3⟩ := reassignGo_mem ss (h + 1) q hq
      refine ⟨hhead _ hmem, ?_⟩
      rw [hk3, levelRank_hStr, levelRank_hStr]
      omega
    · simp

theorem reassignGo_length :
    ∀ (sizes : List ℚ) (h : ℕ), (reassignGo sizes h).length ≤ 5 - h := by
  intro sizes
  induction sizes with
  | nil => intro h; simp [reassignGo]
  | cons s ss ih =>
    intro h
    unfold reassignGo
    split
    · rename_i hh
      have := ih (h + 1)
      simp only [List.length_cons]
      omega
    · simp

/-- C4: the FontLevelMap returned by get_font_size_levels is monotone and
bounded: for any two mapped sizes s1 > s2 the level of s1 ranks at least as
high (H1 highest, smaller rank = higher), the map has at most four entries,
and every assigned level is one of H1..H4. -/
theorem c4_font_level_map_monotone (lines : List Line) :
    (∀ s1 l1 s2 l2, (s1, l1) ∈ (get_font_size_levels lines).1 →
        (s2, l2) ∈ (get_font_size_levels lines).1 → s1 > s2 →
        levelRank l1 ≤ levelRank l2) ∧
    (get_font_size_levels lines).1.length ≤ 4 ∧
    ∀ p ∈ (get_font_size_levels lines).1,
      p.2 ∈ [hStr 1, hStr 2, hStr 3, hStr 4] := by
  have hpw := reassignGo_pairwise (significantSizes lines) 1
    (significantSizes_strict lines)
  refine ⟨?_, ?_, ?_⟩
  · intro s1 l1 s2 l2 h1 h2 hgt
    rcases pairwise_mem_cases hpw h1 h2 with he | hR | hR
    · cases he
      exact absurd hgt (lt_irrefl _)
    · exact le_of_lt hR.2
    · exact absurd hgt (asymm hR.1)
  · exact reassignGo_length (significantSizes lines) 1
  · intro p hp
    obtain ⟨_, k, hk1, hk2, hk3⟩ :=
      reassignGo_mem (significantSizes lines) 1 p hp
    rw [hk3]
    interval_cases k <;> simp

/-- C4 (witness): on `c4Lines` the map is [(20, H1), (16, H2)]; applying the
theorem to the two mapped sizes 20 > 16 yields rank H1 ≤ rank H2. -/
theorem c4_font_level_map_monotone_witness :
    ((20 : ℚ), hStr 1) ∈ (get_font_size_levels c4Lines).1 ∧
    ((16 : ℚ), hStr 2) ∈ (get_font_size_levels c4Lines).1 ∧
    (20 : ℚ) > 16 ∧ levelRank (hStr 1) ≤ levelRank (hStr 2) :=
  ⟨by with_unfolding_all decide, by with_unfolding_all decide,
   by norm_num,
   (c4_font_level_map_monotone c4Lines).1 20 (hStr 1) 16 (hStr 2)
     (by with_unfolding_all decide) (by with_unfolding_all decide)
     (by norm_num)⟩

/-! ## Claim C5 -/

/-- The final dedup pass yields pairwise-distinct (level, text, page) keys,
and none of them is in the already-seen set. -/
theorem dedupGo_spec :
    ∀ (l : List MergedEntry) (seen : List (PyStr × PyStr × ℕ)),
      List.Pairwise (fun a b => meKey a ≠ meKey b) (dedupGo l seen) ∧
      ∀ e ∈ dedupGo l seen, meKey e ∉ seen := by
  intro l
  induction l with
  | nil => intro seen; simp [dedupGo]
  | cons e rest ih =>
    intro seen
    unfold dedupGo
    by_cases h : (e.level, e.text, e.page) ∈ seen
    · simpa [h] using ih seen
    · simp only [h, decide_eq_false, Bool.false_eq_true, if_false]
      have hrec := ih ((e.level, e.text, e.page) :: seen)
      constructor
      · refine List.Pairwise.cons ?_ hrec.1
        intro b hb he
        have := hrec.2 b hb
        rw [← he] at this
        exact this (List.mem_cons_self _ _)
      · intro b hb
        rcases List.mem_cons.mp hb with rfl | hb'
        · exact h
        · intro hbs
          exact hrec.2 b hb' (List.mem_cons_of_mem _ hbs)

theorem dedupOutline_pairwise (l : List MergedEntry) :
    List.Pairwise (fun a b => meKey a ≠ meKey b) (dedupOutline l) :=
  (dedupGo_spec l []).1

/-- C5: whenever no document-specific fingerprint matches (all five
substring checks on the joined page-1 text are false), the returned outline
has pairwise-distinct (level, text, page) triples, and the pre-strip
`cleanedOutline` — the list immediately before the transient y/x0 fields
are popped — is sorted by (page, y, x0). -/
theorem c5_outline_dedup_sorted (lines : List Line)
    (header_ys footer_ys : List ℚ) (repeated_texts : List PyStr)
    (font_levels : List (ℚ × PyStr)) (significant_font_sizes : List ℚ)
    (body : ℚ)
    (h1 : containsSub (fpText (sortLines lines))
      (pyStr "Application form for grant of LTC advance") = false)
    (h2 : containsSub (fpText (sortLines lines))
      (pyStr "Foundation Level Extensions") = false)
    (h3 : containsSub (fpText (sortLines lines))
      (pyStr "Ontario Digital Library") = false)
    (h4 : containsSub (fpText (sortLines lines))
      (pyStr "STEM Pathways") = false)
    (h5 : containsSub (fpText (sortLines lines))
      (pyStr "HOPE To SEE You THERE") = false) :
    List.Pairwise (fun a b : Entry => (a.level, a.text, a.page) ≠ (b.level, b.text, b.page))
      (classify_headings lines header_ys footer_ys repeated_texts font_levels
        significant_font_sizes body) ∧
    List.Sorted meLe (cleanedOutline lines header_ys footer_ys repeated_texts
      font_levels significant_font_sizes body) := by
  constructor
  · have hcl : classify_headings lines header_ys footer_ys repeated_texts
        font_levels significant_font_sizes body =
        (cleanedOutline lines header_ys footer_ys repeated_texts font_levels
          significant_font_sizes body).map stripME := by
      unfold classify_headings
      simp only [h1, h2, h3, h4, h5, Bool.false_eq_true, if_false]
    rw [hcl]
    rw [List.pairwise_map]
    have hd := dedupOutline_pairwise (mergeOutline
      (classifyLoop header_ys footer_ys repeated_texts font_levels
        significant_font_sizes body
        (initialBodyX0 (sortLines lines) header_ys footer_ys body)
        (sortLines lines) none []))
    have hperm := List.perm_insertionSort meLe (dedupOutline (mergeOutline
      (classifyLoop header_ys footer_ys repeated_texts font_levels
        significant_font_sizes body
        (initialBodyX0 (sortLines lines) header_ys footer_ys body)
        (sortLines lines) none [])))
    have hsym : ∀ {x y : MergedEntry}, meKey x ≠ meKey y → meKey y ≠ meKey x :=
      fun h e => h e.symm
    have := (List.Perm.pairwise_iff hsym hperm).mpr hd
    exact this.imp (by intro a b hab; exact hab)
  · exact List.sorted_insertionSort meLe _

/-- C5 (witness): on the empty line list no fingerprint matches and the
conclusion holds (trivially on the empty outline). -/
theorem c5_outline_dedup_sorted_witness :
    containsSub (fpText (sortLines []))
      (pyStr "Application form for grant of LTC advance") = false ∧
    (List.Pairwise (fun a b : Entry => (a.level, a.text, a.page) ≠ (b.level, b.text, b.page))
      (classify_headings [] [] [] [] [] [] 10) ∧
     List.Sorted meLe (cleanedOutline [] [] [] [] [] [] 10)) :=
  ⟨by with_unfolding_all decide,
   c5_outline_dedup_sorted [] [] [] [] [] [] 10
     (by with_unfolding_all decide) (by with_unfolding_all decide)
     (by with_unfolding_all decide) (by with_unfolding_all decide)
     (by with_unfolding_all decide)⟩

/-! ## Claim C6 -/

theorem lastNotSp_iff_reverse {s : PyStr} : lastNotSp s ↔ headNotSp s.reverse := by
  unfold lastNotSp headNotSp
  rw [List.head?_reverse]

theorem collapseAux_cons_sp_true {a : Nat} {s : PyStr} (ha : pyIsSpace a = true) :
    collapseAux true (a :: s) = collapseAux true s := by
  simp only [collapseAux, ha, if_true]

theorem collapseAux_cons_sp_false {a : Nat} {s : PyStr} (ha : pyIsSpace a = true) :
    collapseAux false (a :: s) = 32 :: collapseAux true s := by
  simp only [collapseAux, ha, if_true, Bool.false_eq_true, if_false]

theorem collapseAux_cons_nsp {a : Nat} {s : PyStr} {b : Bool}
    (ha : pyIsSpace a = false) : collapseAux b (a :: s) = a :: collapseAux false s := by
  simp only [collapseAux, ha, Bool.false_eq_true, if_false]

theorem mem_collapseAux :
    ∀ (b : Bool) (s : PyStr) (c : Nat), c ∈ collapseAux b s →
      c = 32 ∨ (c ∈ s ∧ pyIsSpace c = false) := by
  intro b s
  induction s generalizing b with
  | nil => intro c hc; simp [collapseAux] at hc
  | cons a rest ih =>
    intro c hc
    unfold collapseAux at hc
    by_cases ha : pyIsSpace a = true
    · rw [if_pos ha] at hc
      cases b with
      | true =>
        rw [if_pos rfl] at hc
        rcases ih true c hc with h | ⟨hm, hs⟩
        · exact Or.inl h
        · exact Or.inr ⟨List.mem_cons_of_mem _ hm, hs⟩
      | false =>
        rw [if_neg (by simp)] at hc
        rcases List.mem_cons.mp hc with rfl | hc2
        · exact Or.inl rfl
        · rcases ih true c hc2 with h | ⟨hm, hs⟩
          · exact Or.inl h
          · exact Or.inr ⟨List.mem_cons_of_mem _ hm, hs⟩
    · rw [if_neg ha] at hc
      rcases List.mem_cons.mp hc with rfl | hc2
      · exact Or.inr ⟨List.mem_cons_self _ _, Bool.of_not_eq_true ha⟩
      · rcases ih false c hc2 with h | ⟨hm, hs⟩
        · exact Or.inl h
        · exact Or.inr ⟨List.mem_cons_of_mem _ hm, hs⟩

theorem collapseAux_wsCanon (b : Bool) (s : PyStr) : wsCanon (collapseAux b s) := by
  intro c hc htrue
  rcases mem_collapseAux b s c hc with h | ⟨_, hf⟩
  · exact h
  · rw [hf] at htrue; cases htrue

theorem collapseAux_true_head :
    ∀ s : PyStr, headNotSp (collapseAux true s) := by
  intro s
  induction s with
  | nil => intro c hc; simp [collapseAux] at hc
  | cons a rest ih =>
    intro c hc
    by_cases ha : pyIsSpace a = true
    · simp only [collapseAux, ha, if_true] at hc
      exact ih c hc
    · rw [collapseAux_cons_nsp (Bool.of_not_eq_true ha)] at hc
      rw [List.head?_cons, Option.mem_some_iff] at hc
      cases hc
      exact Bool.of_not_eq_true ha

theorem collapseAux_false_head {s : PyStr} (h : headNotSp s) :
    headNotSp (collapseAux false s) := by
  cases s with
  | nil => intro c hc; simp [collapseAux] at hc
  | cons a rest =>
    have ha : pyIsSpace a = false := h a (by rw [List.head?_cons]; rfl)
    intro c hc
    rw [collapseAux_cons_nsp ha] at hc
    rw [List.head?_cons, Option.mem_some_iff] at hc
    cases hc
    exact ha

theorem collapseAux_chain (b : Bool) (s : PyStr) : noTwoSp (collapseAux b s) := by
  induction s generalizing b with
  | nil => simp [collapseAux, noTwoSp]
  | cons a rest ih =>
    by_cases ha : pyIsSpace a = true
    · cases b with
      | true => simpa [collapseAux, ha] using ih true
      | false =>
        rw [collapseAux_cons_sp_false ha]
        unfold noTwoSp
        rw [List.chain'_cons']
        refine ⟨?_, ih true⟩
        intro y hy hcon
        rw [collapseAux_true_head rest y hy] at hcon
        exact absurd hcon.2 (by simp)
    · rw [collapseAux_cons_nsp (Bool.of_not_eq_true ha)]
      unfold noTwoSp
      rw [List.chain'_cons']
      refine ⟨?_, ih false⟩
      intro y _ hcon
      exact ha hcon.1

theorem collapseAux_ne_nil :
    ∀ (b : Bool) (s : PyStr), (∃ c ∈ s, pyIsSpace c = false) →
      collapseAux b s ≠ [] := by
  intro b s
  induction s generalizing b with
  | nil => intro ⟨c, hc, _⟩; simp at hc
  | cons a rest ih =>
    intro ⟨c, hc, hs⟩
    by_cases ha : pyIsSpace a = true
    · have hcr : c ∈ rest := by
        rcases List.mem_cons.mp hc with rfl | h
        · rw [ha] at hs; cases hs
        · exact h
      cases b with
      | true =>
        rw [collapseAux_cons_sp_true ha]
        exact ih true ⟨c, hcr, hs⟩
      | false =>
        rw [collapseAux_cons_sp_false ha]
        simp
    · rw [collapseAux_cons_nsp (Bool.of_not_eq_true ha)]
      simp

theorem collapseAux_last :
    ∀ (s : PyStr) (b : Bool), lastNotSp s → lastNotSp (collapseAux b s) := by
  intro s
  induction s with
  | nil => intro b _ c hc; simp [collapseAux] at hc
  | cons a rest ih =>
    intro b hl
    cases rest with
    | nil =>
      have ha : pyIsSpace a = false := hl a (by simp [List.getLast?_singleton])
      intro c hc
      rw [collapseAux_cons_nsp ha] at hc
      simp only [collapseAux] at hc
      simp only [List.getLast?_singleton, Option.mem_some_iff] at hc
      cases hc
      exact ha
    | cons r rs =>
      have hrest : lastNotSp (r :: rs) := by
        intro c hc
        exact hl c (by rw [List.getLast?_cons_cons]; exact hc)
      have hex : ∃ c ∈ (r :: rs), pyIsSpace c = false := by
        have hne : (r :: rs) ≠ [] := by simp
        refine ⟨(r :: rs).getLast hne, List.getLast_mem hne, ?_⟩
        exact hrest _ (by rw [List.getLast?_eq_getLast _ hne]; rfl)
      have hcons_last : ∀ (x : Nat) (l : PyStr), l ≠ [] →
          (x :: l).getLast? = l.getLast? := by
        intro x l hlne
        cases l with
        | nil => exact absurd rfl hlne
        | cons y ys => rw [List.getLast?_cons_cons]
      by_cases ha : pyIsSpace a = true
      · cases b with
        | true =>
          rw [collapseAux_cons_sp_true ha]
          exact ih true hrest
        | false =>
          rw [collapseAux_cons_sp_false ha]
          intro c hc
          rw [hcons_last 32 _ (collapseAux_ne_nil true _ hex)] at hc
          exact ih true hrest c hc
      · rw [collapseAux_cons_nsp (Bool.of_not_eq_true ha)]
        intro c hc
        rw [hcons_last a _ (collapseAux_ne_nil false _ hex)] at hc
        exact ih false hrest c hc

theorem collapseAux_fixed :
    ∀ (s : PyStr) (b : Bool), wsCanon s → noTwoSp s →
      (b = true → headNotSp s) → collapseAux b s = s := by
  intro s
  induction s with
  | nil => intro b _ _ _; rfl
  | cons a rest ih =>
    intro b hws hchain hhead
    by_cases ha : pyIsSpace a = true
    · have ha32 : a = 32 := hws a (List.mem_cons_self _ _) ha
      have hb : b = false := by
        cases b with
        | false => rfl
        | true =>
          have := hhead rfl a (by rw [List.head?_cons]; rfl)
          rw [ha] at this
          cases this
      subst hb
      rw [collapseAux_cons_sp_false ha]
      have hrest : collapseAux true rest = rest := by
        apply ih true
        · intro c hc hsc
          exact hws c (List.mem_cons_of_mem _ hc) hsc
        · exact List.Chain'.tail hchain
        · intro _
          intro c hc
          have := (List.chain'_cons'.mp hchain).1 c hc
          by_cases hcs : pyIsSpace c = true
          · exact absurd ⟨ha, hcs⟩ this
          · exact Bool.of_not_eq_true hcs
      rw [hrest, ha32]
    · rw [collapseAux_cons_nsp (Bool.of_not_eq_true ha)]
      have hrest : collapseAux false rest = rest := by
        apply ih false
        · intro c hc hsc
          exact hws c (List.mem_cons_of_mem _ hc) hsc
        · exact List.Chain'.tail hchain
        · intro h; cases h
      rw [hrest]

theorem dropWhile_headNotSp (l : PyStr) : headNotSp (l.dropWhile pyIsSpace) := by
  induction l with
  | nil => intro c hc; simp at hc
  | cons a t ih =>
    by_cases ha : pyIsSpace a = true
    · rw [List.dropWhile_cons, if_pos ha]
      exact ih
    · rw [List.dropWhile_cons, if_neg ha]
      intro c hc
      rw [List.head?_cons, Option.mem_some_iff] at hc
      cases hc
      exact Bool.of_not_eq_true ha

theorem getLast?_dropWhile (p : Nat → Bool) :
    ∀ l : PyStr, l.dropWhile p ≠ [] → (l.dropWhile p).getLast? = l.getLast? := by
  intro l
  induction l with
  | nil => intro h; simp at h
  | cons a t ih =>
    intro h
    by_cases ha : p a = true
    · rw [List.dropWhile_cons, if_pos ha] at h ⊢
      have htne : t ≠ [] := by
        intro he
        rw [he] at h
        simp at h
      rw [ih h]
      cases t with
      | nil => exact absurd rfl htne
      | cons y ys => rw [List.getLast?_cons_cons]
    · rw [List.dropWhile_cons, if_neg ha]

theorem mem_stripL {c : Nat} {t : PyStr} (h : c ∈ stripL t) : c ∈ t := by
  unfold stripL at h
  rw [List.mem_reverse] at h
  have h2 := (List.dropWhile_sublist _).subset h
  rw [List.mem_reverse] at h2
  exact (List.dropWhile_sublist _).subset h2

theorem stripL_headNotSp (t : PyStr) : headNotSp (stripL t) := by
  unfold stripL
  intro c hc
  rw [List.head?_reverse] at hc
  by_cases hv : ((t.dropWhile pyIsSpace).reverse.dropWhile pyIsSpace) = []
  · rw [hv] at hc; simp at hc
  · rw [getLast?_dropWhile pyIsSpace _ hv] at hc
    rw [List.getLast?_reverse] at hc
    exact dropWhile_headNotSp t c hc

theorem stripL_lastNotSp (t : PyStr) : lastNotSp (stripL t) := by
  unfold stripL
  intro c hc
  rw [List.getLast?_reverse] at hc
  exact dropWhile_headNotSp _ c hc

theorem mapIdOn {f : Nat → Nat} :
    ∀ {s : PyStr}, (∀ c ∈ s, f c = c) → s.map f = s := by
  intro s
  induction s with
  | nil => intro _; rfl
  | cons a t ih =>
    intro h
    rw [List.map_cons, h a (List.mem_cons_self _ _),
      ih fun c hc => h c (List.mem_cons_of_mem _ hc)]

theorem mem_replaceChar {a b c : Nat} {s : PyStr} (h : c ∈ replaceChar a b s) :
    c = b ∨ c ∈ s := by
  unfold replaceChar at h
  obtain ⟨d, hd, he⟩ := List.mem_map.mp h
  by_cases hda : d = a
  · rw [hda, if_pos rfl] at he
    exact Or.inl he.symm
  · rw [if_neg hda] at he
    exact Or.inr (he ▸ hd)

theorem not_mem_replaceChar_self {a b : Nat} (hne : a ≠ b) (s : PyStr) :
    a ∉ replaceChar a b s := by
  intro h
  unfold replaceChar at h
  obtain ⟨d, _, he⟩ := List.mem_map.mp h
  by_cases hda : d = a
  · rw [if_pos hda] at he
    exact hne he.symm
  · rw [if_neg hda] at he
    exact hda he

/-- When a and b have the same whitespace status, replacing a by b leaves
the whitespace status of every character unchanged. -/
theorem replaceChar_sp_pointwise {a b : Nat} (h : pyIsSpace a = pyIsSpace b)
    (c : Nat) : pyIsSpace (if c = a then b else c) = pyIsSpace c := by
  by_cases hc : c = a
  · rw [if_pos hc, hc, h]
  · rw [if_neg hc]

theorem replaceChar_headNotSp {a b : Nat} (h : pyIsSpace a = pyIsSpace b)
    {s : PyStr} (hs : headNotSp s) : headNotSp (replaceChar a b s) := by
  cases s with
  | nil => intro c hc; simp [replaceChar] at hc
  | cons x t =>
    intro c hc
    unfold replaceChar at hc
    rw [List.map_cons, List.head?_cons, Option.mem_some_iff] at hc
    cases hc
    rw [replaceChar_sp_pointwise h]
    exact hs x (by rw [List.head?_cons]; rfl)

theorem replaceChar_reverse (a b : Nat) (s : PyStr) :
    (replaceChar a b s).reverse = replaceChar a b s.reverse := by
  unfold replaceChar
  rw [List.map_reverse]

theorem replaceChar_lastNotSp {a b : Nat} (h : pyIsSpace a = pyIsSpace b)
    {s : PyStr} (hs : lastNotSp s) : lastNotSp (replaceChar a b s) := by
  rw [lastNotSp_iff_reverse, replaceChar_reverse]
  exact replaceChar_headNotSp h (lastNotSp_iff_reverse.mp hs)

theorem replaceChar_noTwoSp {a b : Nat} (h : pyIsSpace a = pyIsSpace b)
    {s : PyStr} (hs : noTwoSp s) : noTwoSp (replaceChar a b s) := by
  unfold noTwoSp replaceChar at *
  rw [List.chain'_map]
  refine hs.imp ?_
  intro x y hxy hcon
  rw [replaceChar_sp_pointwise h x, replaceChar_sp_pointwise h y] at hcon
  exact hxy hcon

theorem replaceChar_wsCanon {a b : Nat}
    (hb : pyIsSpace b = false) {s : PyStr} (hs : wsCanon s) :
    wsCanon (replaceChar a b s) := by
  intro c hc hsc
  rcases mem_replaceChar hc with rfl | hcs
  · rw [hb] at hsc; cases hsc
  · have h32 := hs c hcs hsc
    exact h32

theorem removeChar_eq_self {a : Nat} {s : PyStr} (h : a ∉ s) :
    removeChar a s = s := by
  unfold removeChar
  rw [List.filter_eq_self]
  intro c hc
  exact decide_eq_true fun he => h (he ▸ hc)

theorem replaceChar_eq_self {a b : Nat} {s : PyStr} (h : a ∉ s) :
    replaceChar a b s = s := by
  unfold replaceChar
  exact mapIdOn fun c hc => if_neg (fun he : c = a => h (he ▸ hc))

theorem normalize_NF {t : PyStr} (h : (0x200B : Nat) ∉ t) : NF (normalize t) := by
  have hu_ws := collapseAux_wsCanon false (stripL t)
  have hu_chain := collapseAux_chain false (stripL t)
  have hu_head := collapseAux_false_head (stripL_headNotSp t)
  have hu_last := collapseAux_last (stripL t) false (stripL_lastNotSp t)
  have hu_zwsp : (0x200B : Nat) ∉ subWS (stripL t) := by
    intro hm
    rcases mem_collapseAux false (stripL t) _ hm with he | ⟨hmem, _⟩
    · cases he
    · exact h (mem_stripL hmem)
  -- m1 = quotes 0x2019 → 39
  have hq : pyIsSpace 0x2019 = pyIsSpace 39 := by decide
  have hm1_ws := replaceChar_wsCanon (a := 0x2019) (b := 39) (by decide) hu_ws
  have hm1_chain := replaceChar_noTwoSp hq hu_chain
  have hm1_head := replaceChar_headNotSp hq hu_head
  have hm1_last := replaceChar_lastNotSp hq hu_last
  have hm1_2019 := not_mem_replaceChar_self (by decide)
    (subWS (stripL t)) (a := 0x2019) (b := 39)
  have hm1_zwsp : (0x200B : Nat) ∉ replaceChar 0x2019 39 (subWS (stripL t)) := by
    intro hm
    rcases mem_replaceChar hm with he | hmem
    · cases he
    · exact hu_zwsp hmem
  -- m2 = 0x201C → 34
  have hq2 : pyIsSpace 0x201C = pyIsSpace 34 := by decide
  have hm2_ws := replaceChar_wsCanon (a := 0x201C) (b := 34) (by decide) hm1_ws
  have hm2_chain := replaceChar_noTwoSp hq2 hm1_chain
  have hm2_head := replaceChar_headNotSp hq2 hm1_head
  have hm2_last := replaceChar_lastNotSp hq2 hm1_last
  have hm2_2019 : (0x2019 : Nat) ∉ replaceChar 0x201C 34
      (replaceChar 0x2019 39 (subWS (stripL t))) := by
    intro hm
    rcases mem_replaceChar hm with he | hmem
    · cases he
    · exact hm1_2019 hmem
  have hm2_201C := not_mem_replaceChar_self (by decide)
    (replaceChar 0x2019 39 (subWS (stripL t))) (a := 0x201C) (b := 34)
  have hm2_zwsp : (0x200B : Nat) ∉ replaceChar 0x201C 34
      (replaceChar 0x2019 39 (subWS (stripL t))) := by
    intro hm
    rcases mem_replaceChar hm with he | hmem
    · cases he
    · exact hm1_zwsp hmem
  -- m3 = 0x201D → 34
  have hq3 : pyIsSpace 0x201D = pyIsSpace 34 := by decide
  have hm3_ws := replaceChar_wsCanon (a := 0x201D) (b := 34) (by decide) hm2_ws
  have hm3_chain := replaceChar_noTwoSp hq3 hm2_chain
  have hm3_head := replaceChar_headNotSp hq3 hm2_head
  have hm3_last := replaceChar_lastNotSp hq3 hm2_last
  have hm3_2019 : (0x2019 : Nat) ∉ replaceChar 0x201D 34 (replaceChar 0x201C 34
      (replaceChar 0x2019 39 (subWS (stripL t)))) := by
    intro hm
    rcases mem_replaceChar hm with he | hmem
    · cases he
    · exact hm2_2019 hmem
  have hm3_201C : (0x201C : Nat) ∉ replaceChar 0x201D 34 (replaceChar 0x201C 34
      (replaceChar 0x2019 39 (subWS (stripL t)))) := by
    intro hm
    rcases mem_replaceChar hm with he | hmem
    · cases he
    · exact hm2_201C hmem
  have hm3_201D := not_mem_replaceChar_self (by decide)
    (replaceChar 0x201C 34 (replaceChar 0x2019 39 (subWS (stripL t))))
    (a := 0x201D) (b := 34)
  have hm3_zwsp : (0x200B : Nat) ∉ replaceChar 0x201D 34 (replaceChar 0x201C 34
      (replaceChar 0x2019 39 (subWS (stripL t)))) := by
    intro hm
    rcases mem_replaceChar hm with he | hmem
    · cases he
    · exact hm2_zwsp hmem
  -- 0xA0 is whitespace, so wsCanon rules it out of m3: that map is identity
  have hm3_a0 : (0xA0 : Nat) ∉ replaceChar 0x201D 34 (replaceChar 0x201C 34
      (replaceChar 0x2019 39 (subWS (stripL t)))) := by
    intro hm
    have := hm3_ws _ hm (by decide)
    cases this
  have hid : replaceChar 0xA0 32 (replaceChar 0x201D 34 (replaceChar 0x201C 34
      (replaceChar 0x2019 39 (subWS (stripL t))))) =
      replaceChar 0x201D 34 (replaceChar 0x201C 34
      (replaceChar 0x2019 39 (subWS (stripL t)))) :=
    replaceChar_eq_self hm3_a0
  have hfil : removeChar 0x200B (replaceChar 0x201D 34 (replaceChar 0x201C 34
      (replaceChar 0x2019 39 (subWS (stripL t))))) =
      replaceChar 0x201D 34 (replaceChar 0x201C 34
      (replaceChar 0x2019 39 (subWS (stripL t)))) :=
    removeChar_eq_self hm3_zwsp
  have hnorm : normalize t = replaceChar 0x201D 34 (replaceChar 0x201C 34
      (replaceChar 0x2019 39 (subWS (stripL t)))) := by
    unfold normalize
    rw [hid, hfil]
  rw [hnorm]
  exact ⟨hm3_ws, hm3_chain, hm3_head, hm3_last, hm3_2019, hm3_201C, hm3_201D,
    hm3_zwsp⟩

theorem stripL_eq_self {s : PyStr} (hh : headNotSp s) (hl : lastNotSp s) :
    stripL s = s := by
  unfold stripL
  have h1 : s.dropWhile pyIsSpace = s := by
    cases s with
    | nil => rfl
    | cons a t =>
      rw [List.dropWhile_cons, if_neg]
      rw [hh a (by rw [List.head?_cons]; rfl)]
      simp
  rw [h1]
  have h2 : s.reverse.dropWhile pyIsSpace = s.reverse := by
    have hh2 := lastNotSp_iff_reverse.mp hl
    cases hr : s.reverse with
    | nil => rfl
    | cons a t =>
      rw [List.dropWhile_cons, if_neg]
      rw [hr] at hh2
      rw [hh2 a (by rw [List.head?_cons]; rfl)]
      simp
  rw [h2, List.reverse_reverse]

theorem normalize_of_NF {s : PyStr} (h : NF s) : normalize s = s := by
  obtain ⟨hws, hchain, hhead, hlast, h2019, h201C, h201D, h200B⟩ := h
  unfold normalize
  rw [stripL_eq_self hhead hlast]
  have hsub : subWS s = s :=
    collapseAux_fixed s false hws hchain (fun h => nomatch h)
  rw [hsub]
  have ha0 : (0xA0 : Nat) ∉ s := by
    intro hm
    have := hws _ hm (by decide)
    cases this
  rw [replaceChar_eq_self h2019, replaceChar_eq_self h201C,
    replaceChar_eq_self h201D, replaceChar_eq_self ha0]
  exact removeChar_eq_self h200B

/-- C6 (amended): normalize is idempotent on every string that holds no
zero-width space U+200B.  (Idempotence in general fails: removing U+200B
happens after whitespace collapsing, so deleting it can leave a double or
leading/trailing space.) -/
theorem c6_normalize_idempotent_no_zwsp (t : PyStr) (h : (0x200B : Nat) ∉ t) :
    normalize (normalize t) = normalize t :=
  normalize_of_NF (normalize_NF h)

/-- C6 (counterexample): normalize is not idempotent.  On "a␣U+200B␣b" the
first pass collapses nothing (U+200B is not whitespace) and then deletes
U+200B, leaving "a␣␣b" with a double space; the second pass collapses it to
"a␣b". -/
theorem c6_normalize_not_idempotent :
    normalize (normalize c6Text) ≠ normalize c6Text ∧
    normalize c6Text = [97, 32, 32, 98] ∧
    normalize (normalize c6Text) = [97, 32, 98] := by
  decide

/-- C6 (amended, witness): the idempotence theorem applied to the concrete
U+200B-free string "ab c". -/
theorem c6_normalize_idempotent_no_zwsp_witness :
    (0x200B : Nat) ∉ pyStr "ab c" ∧
    normalize (normalize (pyStr "ab c")) = normalize (pyStr "ab c") :=
  ⟨by decide, c6_normalize_idempotent_no_zwsp (pyStr "ab c") (by decide)⟩

/-! ## Claim C7 -/

/-- C7 (counterexample): the claim says at most one of the two global
repetition collapses takes effect on any one call.  On `c7Title` the
doubled-character collapse leaves the text unchanged, pattern 2 (second
half = first half) then collapses it to "x y: x y", and pattern 3
("Label: Label") further collapses that to "x y" — both collapses take
effect in the same call. -/
theorem c7_both_title_collapses_fire :
    titlePattern2 (collapseDoubles (normalize c7Title)) ≠
      collapseDoubles (normalize c7Title) ∧
    titlePattern3 (titlePattern2 (collapseDoubles (normalize c7Title))) ≠
      titlePattern2 (collapseDoubles (normalize c7Title)) ∧
    clean_doubled_text_aggressive c7Title = pyStr "x y" := by
  with_unfolding_all decide

/-- C7 (amended): after the doubled-character collapse the two global
repetition collapses are applied in sequence — pattern 3 is tested on
pattern 2's output — so both can take effect on the same call (witnessed by
a doubled "Label: Label" phrase). -/
theorem c7_title_collapses_sequential :
    (∀ t, clean_doubled_text_aggressive t =
      stripL (titlePattern3 (titlePattern2 (collapseDoubles (normalize t))))) ∧
    ∃ t, titlePattern2 (collapseDoubles (normalize t)) ≠
          collapseDoubles (normalize t) ∧
         titlePattern3 (titlePattern2 (collapseDoubles (normalize t))) ≠
          titlePattern2 (collapseDoubles (normalize t)) := by
  refine ⟨fun t => rfl, ⟨c7Title, ?_, ?_⟩⟩ <;> with_unfolding_all decide

/-! ## Claim C8 -/

/-- A line produced by `processGroup` has non-empty (stripped) text and a
positive font size: exactly the emission guard of extract_lines. -/
theorem processGroup_some {page : ℕ} {chars : List PyChar} {l : Line}
    (h : processGroup page chars = some l) : l.text ≠ [] ∧ 0 < l.font_size := by
  cases chars with
  | nil => simp [processGroup] at h
  | cons c cs =>
    simp only [processGroup] at h
    by_cases hc : (!(stripL (buildText (c :: cs))).isEmpty && decide (c.size > 0)) = true
    · rw [if_pos hc] at h
      cases h
      simp only [Bool.and_eq_true, Bool.not_eq_true', decide_eq_true_eq] at hc
      refine ⟨?_, hc.2⟩
      intro he
      have he2 : stripL (buildText (c :: cs)) = [] := he
      rw [he2] at hc
      simp at hc
    · rw [if_neg hc] at h
      exact absurd h (by simp)

/-- Every line emitted by the grouping loop comes from some processed group. -/
theorem mem_groupChars {page : ℕ} :
    ∀ (chars cur : List PyChar) (py : Option ℚ) (l : Line),
      l ∈ groupChars page chars cur py → ∃ g, processGroup page g = some l := by
  intro chars
  induction chars with
  | nil =>
    intro cur py l hl
    unfold groupChars at hl
    cases hp : processGroup page cur with
    | none => rw [hp] at hl; simp at hl
    | some x => rw [hp] at hl; simp at hl; exact ⟨cur, by rw [hp, hl]⟩
  | cons c rest ih =>
    intro cur py l hl
    unfold groupChars at hl
    split at hl
    · rcases List.mem_append.mp hl with h1 | h2
      · cases hp : processGroup page cur with
        | none => rw [hp] at h1; simp at h1
        | some x => rw [hp] at h1; simp at h1; exact ⟨cur, by rw [hp, h1]⟩
      · exact ih _ _ _ h2
    · exact ih _ _ _ hl

theorem mem_extractPagesFrom :
    ∀ (i : ℕ) (pages : List (List PyChar)) (l : Line),
      l ∈ extractPagesFrom i pages → ∃ pg g, processGroup pg g = some l := by
  intro i pages
  induction pages generalizing i with
  | nil => intro l hl; simp [extractPagesFrom] at hl
  | cons p ps ih =>
    intro l hl
    unfold extractPagesFrom at hl
    rcases List.mem_append.mp hl with h1 | h2
    · obtain ⟨g, hg⟩ := mem_groupChars _ _ _ _ h1
      exact ⟨i, g, hg⟩
    · exact ih _ _ h2

/-- C8 (amended): extract_lines checks only the line's *first* character's
size, so the amended invariant is about emitted lines, not characters:
every Line emitted by extract_lines has non-empty stripped text (its text
field is stored stripped) and a positive font size (that of its first
character). -/
theorem c8_emitted_line_invariant (pages : List (List PyChar)) (l : Line)
    (h : l ∈ extract_lines pages) : l.text ≠ [] ∧ 0 < l.font_size := by
  obtain ⟨pg, g, hg⟩ := mem_extractPagesFrom 1 pages l h
  exact processGroup_some hg

/-- C8 (counterexample): the claim says every character with non-positive
font size is discarded and contributes no text.  Character `c8CharB` has
size 0 and text "B", yet the single emitted line's text is "AB": the size-0
character's text is kept, because the emission guard looks only at the first
character's size. -/
theorem c8_nonpositive_char_kept :
    c8CharB.size ≤ 0 ∧ c8CharB.text = [66] ∧
    extract_lines [[c8CharA, c8CharB]] =
      [{ text := [65, 66], font := pyStr "F", font_size := 12,
         x0 := 0, y := 0, page := 1 }] := by
  with_unfolding_all decide

/-- C8 (amended, witness): the invariant applied to the concrete one-line
document built from `c8CharA` alone. -/
theorem c8_emitted_line_invariant_witness :
    c8LineA ∈ extract_lines [[c8CharA]] ∧
    c8LineA.text ≠ [] ∧ 0 < c8LineA.font_size :=
  ⟨by with_unfolding_all decide,
   c8_emitted_line_invariant [[c8CharA]] c8LineA (by with_unfolding_all decide)⟩

/-! ## Claim C9 -/

/-- C9: on the empty character stream / empty line list every stage degrades
to its default: no lines are extracted, the page count is 1, the
header/footer/boilerplate sets are empty, the font analysis returns no
levels and the default body size 10, the title is the empty string, the
outline is empty, and the output record's outline field is the empty
sequence. -/
theorem c9_empty_input_degrades :
    extract_lines [] = [] ∧
    totalPages [] = 1 ∧
    detect_headers_footers [] 1 = ([], [], []) ∧
    get_font_size_levels [] = ([], [], 10) ∧
    extract_title [] [] [] [] = [] ∧
    classify_headings [] [] [] [] [] [] 10 = [] ∧
    (processDocument []).outline = [] := by
  with_unfolding_all decide

/-! ## Claim C10 -/

/-- C10: classify_headings reorders its input list in place by sorting it on
(page, y, x0) — modelled by `sortLines`, the post-call state of the caller's
list.  The post-call list is a permutation of the original (so the records
themselves are unchanged, only the order), it is sorted by (page, y, x0),
and main computes the title from the pre-sort list (extract_title is called
on `lines` before classify_headings runs). -/
theorem c10_classify_sorts_lines_in_place (lines : List Line) :
    (sortLines lines).Perm lines ∧
    List.Sorted lineLe (sortLines lines) ∧
    (processDocument lines).title =
      extract_title lines
        (detect_headers_footers lines (totalPages lines)).1
        (detect_headers_footers lines (totalPages lines)).2.1
        (detect_headers_footers lines (totalPages lines)).2.2 :=
  ⟨List.perm_insertionSort lineLe lines,
   List.sorted_insertionSort lineLe lines, rfl⟩

end PdfPipeline
